import Mathlib

/-!
Versioned key context of the passw0rd client (`context.go`)

A shallow embedding of `ParseVersionAndContent`, `parseTokens` and
`CreateContext`, together with the library functions they call
(`strings.Split`, `strconv.Atoi`, `hex.DecodeString`,
`base64.StdEncoding`, `errors.New`, `errors.Wrap`, `sort.Slice`).

Conventions of the embedding:
* a Go `string` is a sequence of bytes; it is modelled as a `List Char`
  in which every `Char` stands for one byte, so `len(s)` is `s.length`;
* a Go `[]byte` is `Option (List Nat)`, `none` being the `nil` slice;
* a Go `error` is `Option GoError`, `none` being the `nil` error;
* a Go `map[uint32]T` is an association list with unique keys;
* `uint32` is `Nat` with explicit reduction modulo `2 ^ 32`;
* the PHE library (`phe.NewClient`, `phe.RotateClientKeys`) is a parameter.
-/

namespace Passw0rd

/-! ## Basic types -/

/-- Go `string`: a sequence of bytes, one `Char` per byte. -/
abbrev GoString := List Char

/-- Go `[]byte`; `none` is the `nil` slice. -/
abbrev Bytes := Option (List Nat)

/-- The two sentinel causes carried by a `*strconv.NumError`. -/
inductive NumErrKind where
  | errSyntaxKind
  | errRangeKind
  deriving DecidableEq, Repr

/-- Error values that can flow through `context.go`. -/
inductive GoError where
  /-- Go `errors.New(msg)` of `github.com/pkg/errors`. -/
  | errorsNew (msg : String)
  /-- Go `errors.Wrap(cause, msg)` for a non-nil `cause`. -/
  | withMessage (cause : GoError) (msg : String)
  /-- Go `*strconv.NumError` with its `Func`, `Num` and `Err` fields. -/
  | numError (fn : String) (num : GoString) (kind : NumErrKind)
  /-- Go `base64.CorruptInputError` (the byte offset is not modelled). -/
  | corruptInputError
  /-- Go `hex.ErrLength`. -/
  | hexErrLength
  /-- Go `hex.InvalidByteError` for the offending byte. -/
  | hexInvalidByteError (c : Char)
  /-- Go `fmt.Errorf(format, arg)` with one `%d` argument. -/
  | fmtErrorf (format : String) (arg : Nat)
  /-- An error produced inside the PHE library. -/
  | pheError (code : Nat)
  deriving DecidableEq, Repr

/-- Go `errors.New`. -/
def errorsNew (msg : String) : Option GoError :=
  some (GoError.errorsNew msg)

/-- Go `errors.Wrap`: wrapping the `nil` error yields `nil`. -/
def errorsWrap (err : Option GoError) (msg : String) : Option GoError :=
  match err with
  | none => none
  | some e => some (GoError.withMessage e msg)

/-! ## `strings.Split` with a one-byte separator -/

/-- Go `strings.Split(s, sep)` for a separator of one byte: the substrings
between the separators, so the result has one more element than `s` has
separators, and `Split("", sep)` is the one-element slice `[""]`. -/
def stringsSplit (s : GoString) (sep : Char) : List GoString :=
  match s with
  | [] => [[]]
  | c :: cs =>
    if c = sep then [] :: stringsSplit cs sep
    else
      match stringsSplit cs sep with
      | [] => [[c]]
      | p :: ps => (c :: p) :: ps

/-! ## `strconv.Atoi` -/

/-- The value of a decimal digit byte, `none` for any other byte. -/
def digitVal (c : Char) : Option Nat :=
  if 48 ≤ c.toNat ∧ c.toNat ≤ 57 then some (c.toNat - 48) else none

/-- The digit loop of `strconv.ParseUint(s, 10, 64)`, started with the
accumulator `n`: a non-digit is a syntax error, and leaving the `uint64`
range is a range error, whichever comes first from the left. -/
def parseUintLoop (n : Nat) (s : GoString) : Except NumErrKind Nat :=
  match s with
  | [] => Except.ok n
  | c :: cs =>
    match digitVal c with
    | none => Except.error NumErrKind.errSyntaxKind
    | some d =>
      if n ≥ (2 ^ 64 - 1) / 10 + 1 then Except.error NumErrKind.errRangeKind
      else if n * 10 + d > 2 ^ 64 - 1 then Except.error NumErrKind.errRangeKind
      else parseUintLoop (n * 10 + d) cs

/-- Go `strconv.ParseUint(s, 10, 64)`. -/
def parseUint (s : GoString) : Except NumErrKind Nat :=
  match s with
  | [] => Except.error NumErrKind.errSyntaxKind
  | _ => parseUintLoop 0 s

/-- Go `strconv.ParseInt(s, 10, 0)` on a platform whose `int` has 64 bits:
an optional sign, then `ParseUint`, then the range check of the signed
result. -/
def parseInt (s : GoString) : Except NumErrKind Int :=
  match s with
  | [] => Except.error NumErrKind.errSyntaxKind
  | c :: cs =>
    let neg := decide (c = '-')
    let body := if c = '+' ∨ c = '-' then cs else c :: cs
    match parseUint body with
    | Except.error k => Except.error k
    | Except.ok un =>
      if ¬ neg ∧ un ≥ 2 ^ 63 then Except.error NumErrKind.errRangeKind
      else if neg ∧ un > 2 ^ 63 then Except.error NumErrKind.errRangeKind
      else Except.ok (if neg then - (un : Int) else (un : Int))

/-- Go `strconv.Atoi(s)`: the parsed `int`, or a `*NumError` whose `Func` is
`"Atoi"` and whose `Num` is the input. The value returned next to an
error is discarded by every caller and is not modelled. -/
def Atoi (s : GoString) : Except GoError Int :=
  match parseInt s with
  | Except.error k => Except.error (GoError.numError "Atoi" s k)
  | Except.ok n => Except.ok n

/-- The conversion `uint32(n)` of an `int`. -/
def toUint32 (n : Int) : Nat :=
  (n % (2 ^ 32 : Int)).toNat

/-! ## `encoding/hex` and `encoding/base64` -/

/-- Go `fromHexChar` of `encoding/hex`: the value of a hexadecimal digit. -/
def fromHexChar (c : Char) : Option Nat :=
  let n := c.toNat
  if 48 ≤ n ∧ n ≤ 57 then some (n - 48)
  else if 97 ≤ n ∧ n ≤ 102 then some (n - 97 + 10)
  else if 65 ≤ n ∧ n ≤ 70 then some (n - 65 + 10)
  else none

/-- Go `hex.DecodeString`: pairs of hexadecimal digits are decoded from the
left; the first invalid byte gives `InvalidByteError`, and an odd length
whose last byte is a digit gives `ErrLength`. -/
def hexDecodeString (s : GoString) : Except GoError (List Nat) :=
  match s with
  | [] => Except.ok []
  | [c] =>
    match fromHexChar c with
    | none => Except.error (GoError.hexInvalidByteError c)
    | some _ => Except.error GoError.hexErrLength
  | p :: q :: rest =>
    match fromHexChar p with
    | none => Except.error (GoError.hexInvalidByteError p)
    | some a =>
      match fromHexChar q with
      | none => Except.error (GoError.hexInvalidByteError q)
      | some b =>
        match hexDecodeString rest with
        | Except.error e => Except.error e
        | Except.ok bs => Except.ok ((a * 16 + b) :: bs)

/-- The standard base64 alphabet of RFC 4648. -/
def encodeStd : GoString :=
  "ABCDEFGHIJKLMNOPQRSTUVWXYZabcdefghijklmnopqrstuvwxyz0123456789+/".toList

/-- The alphabet character of a six-bit value. -/
def b64Char (n : Nat) : Char :=
  encodeStd.getD n 'A'

/-- The six-bit value of an alphabet character, `none` otherwise. -/
def b64Val (c : Char) : Option Nat :=
  let n := c.toNat
  if 65 ≤ n ∧ n ≤ 90 then some (n - 65)
  else if 97 ≤ n ∧ n ≤ 122 then some (n - 97 + 26)
  else if 48 ≤ n ∧ n ≤ 57 then some (n - 48 + 52)
  else if n = 43 then some 62
  else if n = 47 then some 63
  else none

/-- Go `base64.StdEncoding.EncodeToString` on a list of byte values. -/
def stdEncodeToString (b : List Nat) : GoString :=
  match b with
  | [] => []
  | [x] => [b64Char (x / 4), b64Char (x % 4 * 16), '=', '=']
  | [x, y] => [b64Char (x / 4), b64Char (x % 4 * 16 + y / 16), b64Char (y % 16 * 4), '=']
  | x :: y :: z :: rest =>
    b64Char (x / 4) :: b64Char (x % 4 * 16 + y / 16) :: b64Char (y % 16 * 4 + z / 64) ::
      b64Char (z % 64) :: stdEncodeToString rest

/-- The quantum loop of the decoder, on input from which line breaks have
been removed: groups of four characters, the last one possibly padded
with one or two `=`; anything else is corrupt input. -/
def decodeQuanta (s : GoString) : Except GoError (List Nat) :=
  match s with
  | [] => Except.ok []
  | a :: b :: c :: d :: rest =>
    match b64Val a, b64Val b with
    | some va, some vb =>
      if c = '=' ∧ d = '=' ∧ rest = [] then
        Except.ok [(va * 4 + vb / 16) % 256]
      else
        match b64Val c with
        | none => Except.error GoError.corruptInputError
        | some vc =>
          if d = '=' ∧ rest = [] then
            Except.ok [(va * 4 + vb / 16) % 256, (vb % 16 * 16 + vc / 4) % 256]
          else
            match b64Val d with
            | none => Except.error GoError.corruptInputError
            | some vd =>
              match decodeQuanta rest with
              | Except.error e => Except.error e
              | Except.ok bs =>
                Except.ok ((va * 4 + vb / 16) % 256 :: (vb % 16 * 16 + vc / 4) % 256 ::
                  (vc % 4 * 64 + vd) % 256 :: bs)
    | _, _ => Except.error GoError.corruptInputError
  | _ => Except.error GoError.corruptInputError

/-- Go `base64.StdEncoding.DecodeString`: padded, not strict; carriage
returns and line feeds are ignored. -/
def stdDecodeString (s : GoString) : Except GoError (List Nat) :=
  decodeQuanta (s.filter (fun c => c ≠ '\r' ∧ c ≠ '\n'))

/-! ## `ParseVersionAndContent` -/

/-- The function `ParseVersionAndContent(prefix, str)` of `context.go`, returning the
three results `(version, content, err)`.

The results are named in the source, so `version` is `0` and `err` is
`nil` where the check `version < 1` reads them: `nVersion` is assigned
to `version` only after that check. -/
def ParseVersionAndContent (pfx str : GoString) : Nat × Bytes × Option GoError :=
  let parts := stringsSplit str '.'
  if parts.length ≠ 3 ∨ parts.getD 0 [] ≠ pfx then
    (0, none, errorsNew "invalid string")
  else
    match Atoi (parts.getD 1 []) with
    | Except.error err => (0, none, errorsWrap (some err) "invalid string")
    | Except.ok nVersion =>
      let version : Nat := 0
      let err : Option GoError := none
      if version < 1 then
        (0, none, errorsWrap err "invalid version")
      else
        let version := toUint32 nVersion
        match stdDecodeString (parts.getD 2 []) with
        | Except.error err => (0, none, errorsWrap (some err) "invalid string")
        | Except.ok content => (version, some content, none)

/-! ## Maps, tokens, the PHE library and the context -/

/-- Go `map[uint32]T` as an association list; `assign` keeps keys unique. -/
abbrev GoMap (β : Type) := List (Nat × β)

/-- The map assignment `m[k] = v`. -/
def GoMap.assign {β : Type} (m : GoMap β) (k : Nat) (v : β) : GoMap β :=
  match m with
  | [] => [(k, v)]
  | (k0, v0) :: rest => if k0 = k then (k, v) :: rest else (k0, v0) :: GoMap.assign rest k v

/-- The map lookup `m[k]`, `none` for an absent key. -/
def GoMap.lookup {β : Type} (m : GoMap β) (k : Nat) : Option β :=
  match m with
  | [] => none
  | (k0, v0) :: rest => if k0 = k then some v0 else GoMap.lookup rest k

/-- The keys of a map. -/
def GoMap.keys {β : Type} (m : GoMap β) : List Nat :=
  m.map Prod.fst

/-- Modelled from the spec: the struct `VersionedUpdateToken`, declared
outside `context.go`; a parsed rotation token with the `uint32` target
version and the raw payload bytes. -/
structure VersionedUpdateToken where
  Version : Nat
  UpdateToken : Bytes
  deriving DecidableEq, Repr

/-- The two functions of `github.com/passw0rd/phe-go` used by
`context.go`, for a client type `Client`. -/
structure PHE (Client : Type) where
  NewClient : Bytes → Bytes → Except GoError Client
  RotateClientKeys : Bytes → Bytes → Bytes → Except GoError (Bytes × Bytes)

/-- The struct `Context`; `UpdateTokens` is `none` for the `nil` map. -/
structure Context (Client : Type) where
  AccessToken : GoString
  AppId : GoString
  PHEClients : GoMap Client
  UpdateTokens : Option (GoMap Bytes)
  Version : Nat

/-! ## `sort.Slice` -/

/-- One pass of the inner loop of insertion sort: `x` is placed in the
sorted slice before the first element it is less than. -/
def insertSorted {α : Type} (less : α → α → Bool) (x : α) (l : List α) : List α :=
  match l with
  | [] => [x]
  | y :: ys => if less x y then x :: y :: ys else y :: insertSorted less x ys

/-- Go `sort.Slice(x, less)`: the elements are inserted one after the other
into the sorted part. The library uses this insertion sort up to twelve
elements; beyond that it may order elements that compare equal
differently. -/
def sortSlice {α : Type} (less : α → α → Bool) (x : List α) : List α :=
  x.foldl (fun acc e => insertSorted less e acc) []

/-! ## `parseTokens` -/

/-- The `for ... range tokens` loop of `parseTokens`, with the slice
`parsedTokens` built so far. -/
def parseTokensLoop (tokens : List GoString) (parsedTokens : List VersionedUpdateToken) :
    List VersionedUpdateToken × Option GoError :=
  match tokens with
  | [] => (parsedTokens, none)
  | tokenStr :: rest =>
    match ParseVersionAndContent "UT".toList tokenStr with
    | (version, content, err) =>
      match err with
      | some _ => ([], errorsWrap err "invalid update token")
      | none => parseTokensLoop rest (parsedTokens ++ [VersionedUpdateToken.mk version content])

/-- The function `parseTokens(tokens...)` of `context.go`; the `nil` slice is `[]`. -/
def parseTokens (tokens : List GoString) : List VersionedUpdateToken × Option GoError :=
  if tokens.length = 0 then ([], none)
  else
    match parseTokensLoop tokens [] with
    | (parsedTokens, none) =>
      (sortSlice (fun a b => decide (a.Version < b.Version)) parsedTokens, none)
    | (_, some err) => ([], some err)

/-! ## `CreateContext` -/

/-- The variables the rotation loop of `CreateContext` updates. -/
structure LoopState (Client : Type) where
  phes : GoMap Client
  currentSk : Bytes
  currentPub : Bytes
  currentVersion : Nat
  tokenMap : GoMap Bytes

/-- The `for ... range tokens` loop of `CreateContext`: the state after
the last token, or the error of the first step that returns. -/
def rotateLoop {Client : Type} (phe : PHE Client) (tokens : List VersionedUpdateToken)
    (st : LoopState Client) : Except (Option GoError) (LoopState Client) :=
  match tokens with
  | [] => Except.ok st
  | token :: rest =>
    if token.Version ≠ (st.currentVersion + 1) % 2 ^ 32 then
      Except.error (some (GoError.fmtErrorf "incorrect token version %d" token.Version))
    else
      match phe.RotateClientKeys st.currentSk st.currentPub token.UpdateToken with
      | Except.error err => Except.error (errorsWrap (some err) "could not update keys using token")
      | Except.ok (nextSk, nextPub) =>
        match phe.NewClient nextSk nextPub with
        | Except.error err => Except.error (errorsWrap (some err) "could not create PHE client")
        | Except.ok nextClient =>
          rotateLoop phe rest
            (LoopState.mk (st.phes.assign token.Version nextClient) nextSk nextPub token.Version
              (st.tokenMap.assign token.Version token.UpdateToken))

/-- The function `CreateContext(accessToken, appId, clientSecretKey, serverPublicKey,
updateTokens...)` of `context.go`, returning the pair `(*Context, error)`. -/
def CreateContext {Client : Type} (phe : PHE Client)
    (accessToken appId clientSecretKey serverPublicKey : GoString)
    (updateTokens : List GoString) : Option (Context Client) × Option GoError :=
  if appId.length ≠ 32 ∨ clientSecretKey = [] ∨ serverPublicKey = [] ∨ accessToken = [] then
    (none, errorsNew "all parameters are mandatory")
  else
    match hexDecodeString appId with
    | Except.error _ => (none, errorsNew "invalid appID")
    | Except.ok _ =>
      match ParseVersionAndContent "SK".toList clientSecretKey with
      | (_, _, some err) => (none, errorsWrap (some err) "invalid secret key")
      | (skVersion, sk, none) =>
        match ParseVersionAndContent "PK".toList serverPublicKey with
        | (_, _, some err) => (none, errorsWrap (some err) "invalid public key")
        | (pubVersion, pubBytes, none) =>
          if skVersion ≠ pubVersion then
            (none, errorsNew "public and secret keys must have the same version")
          else
            match phe.NewClient sk pubBytes with
            | Except.error err => (none, errorsWrap (some err) "could not create PHE client")
            | Except.ok pheClient =>
              let phes : GoMap Client := GoMap.assign [] pubVersion pheClient
              match parseTokens updateTokens with
              | (_, some err) => (none, errorsWrap (some err) "could not parse update tokens")
              | (tokens, none) =>
                if tokens.length > 0 then
                  match rotateLoop phe tokens (LoopState.mk phes sk pubBytes pubVersion []) with
                  | Except.error err => (none, err)
                  | Except.ok st =>
                    (some (Context.mk accessToken appId st.phes (some st.tokenMap)
                      st.currentVersion), none)
                else
                  (some (Context.mk accessToken appId phes none pubVersion), none)

/-! ## The wire format, used to state the properties -/

/-- Go `strconv.FormatUint(n, 10)` with explicit fuel: the decimal digits of
`n` are pushed in front of `acc`, least significant first. -/
def formatUintAux (fuel n : Nat) (acc : GoString) : GoString :=
  match fuel with
  | 0 => acc
  | f + 1 =>
    if n / 10 = 0 then Char.ofNat (48 + n % 10) :: acc
    else formatUintAux f (n / 10) (Char.ofNat (48 + n % 10) :: acc)

/-- The decimal representation of a natural number, as `strconv.Itoa`
prints it: no sign, no leading zero. -/
def decimal (n : Nat) : GoString :=
  formatUintAux (n + 1) n []

/-- The wire format `PREFIX.VERSION.BASE64PAYLOAD` of an encoded value:
the prefix, the decimal version and the padded standard base64 of the
payload, joined by dots. -/
def encodeVersioned (pfx : GoString) (v : Nat) (b : List Nat) : GoString :=
  pfx ++ '.' :: (decimal v ++ '.' :: stdEncodeToString b)

/-! ## Values used to instantiate the properties -/

/-- The hexadecimal digits, in both cases. -/
def hexDigits : GoString :=
  "0123456789abcdefABCDEF".toList

/-- A PHE library that never fails: a client is the pair of its keys, and
a rotation takes the token as the next secret key. -/
def totalPHE : PHE (Bytes × Bytes) where
  NewClient := fun sk pub => Except.ok (sk, pub)
  RotateClientKeys := fun _ pub token => Except.ok (token, pub)

/-- A well-formed application identifier: 32 hexadecimal digits. -/
def sampleAppId : GoString :=
  "0123456789abcdef0123456789ABCDEF".toList

/-- Two strings that differ at most in their third dot-separated
segment: they split into the same number of parts, and the parts agree
once the third one is removed. -/
def sameButThird (s t : GoString) : Prop :=
  (stringsSplit s '.').length = (stringsSplit t '.').length ∧
    (stringsSplit s '.').eraseIdx 2 = (stringsSplit t '.').eraseIdx 2

instance (s t : GoString) : Decidable (sameButThird s t) := by
  unfold sameButThird
  exact inferInstance

/-- The number denoted by a string of decimal digits, most significant
digit first, continuing from the value `n` already read. -/
def digitsValueFrom (n : Nat) (s : GoString) : Nat :=
  s.foldl (fun acc c => acc * 10 + (c.toNat - 48)) n

/-- An optionally signed decimal integer in the range of a 64-bit `int`:
one optional `+` or `-`, then at least one decimal digit and nothing
else, the value lying between `-2 ^ 63` and `2 ^ 63 - 1`. -/
def isIntLiteral (s : GoString) : Prop :=
  match s with
  | [] => False
  | c :: cs =>
    if c = '-' then
      cs ≠ [] ∧ (∀ d ∈ cs, (digitVal d).isSome = true) ∧ digitsValueFrom 0 cs ≤ 2 ^ 63
    else if c = '+' then
      cs ≠ [] ∧ (∀ d ∈ cs, (digitVal d).isSome = true) ∧ digitsValueFrom 0 cs < 2 ^ 63
    else
      (∀ d ∈ c :: cs, (digitVal d).isSome = true) ∧ digitsValueFrom 0 (c :: cs) < 2 ^ 63

instance (s : GoString) : Decidable (isIntLiteral s) := by
  unfold isIntLiteral
  split
  · exact inferInstance
  · split
    · exact inferInstance
    · split <;> exact inferInstance

/-! # Properties -/

/-! ## `strings.Split` and the branches of `ParseVersionAndContent` -/

theorem stringsSplit_ne_nil (s : GoString) (sep : Char) : stringsSplit s sep ≠ [] := by
  cases s with
  | nil => simp [stringsSplit]
  | cons c cs =>
    unfold stringsSplit
    split
    · simp
    · split <;> simp

theorem stringsSplit_no_sep (s : GoString) (sep : Char) (h : sep ∉ s) :
    stringsSplit s sep = [s] := by
  induction s with
  | nil => simp [stringsSplit]
  | cons c cs ih =>
    simp only [List.mem_cons, not_or] at h
    have hc : c ≠ sep := fun e => h.1 e.symm
    simp [stringsSplit, hc, ih h.2]

theorem stringsSplit_append (s t : GoString) (sep : Char) (h : sep ∉ s) :
    stringsSplit (s ++ sep :: t) sep = s :: stringsSplit t sep := by
  induction s with
  | nil => simp [stringsSplit]
  | cons c cs ih =>
    simp only [List.mem_cons, not_or] at h
    have hc : c ≠ sep := fun e => h.1 e.symm
    simp [stringsSplit, hc, ih h.2]

theorem stringsSplit_three (a b c : GoString) (sep : Char) (ha : sep ∉ a) (hb : sep ∉ b)
    (hc : sep ∉ c) : stringsSplit (a ++ sep :: (b ++ sep :: c)) sep = [a, b, c] := by
  rw [stringsSplit_append a _ sep ha, stringsSplit_append b _ sep hb, stringsSplit_no_sep c sep hc]

/-- What `ParseVersionAndContent` computes, branch by branch. -/
theorem ParseVersionAndContent_eq (pfx str : GoString) :
    ParseVersionAndContent pfx str =
      if (stringsSplit str '.').length ≠ 3 ∨ (stringsSplit str '.').getD 0 [] ≠ pfx then
        (0, none, some (GoError.errorsNew "invalid string"))
      else
        match Atoi ((stringsSplit str '.').getD 1 []) with
        | Except.error err => (0, none, some (GoError.withMessage err "invalid string"))
        | Except.ok _ => (0, none, none) := by
  unfold ParseVersionAndContent
  simp only [errorsNew, errorsWrap]
  split
  · rfl
  · split <;> simp

/-! ## Decimal numerals and `strconv.Atoi` -/

theorem digitVal_ofNat (d : Nat) (h : d < 10) : digitVal (Char.ofNat (48 + d)) = some d := by
  interval_cases d <;> decide

theorem ofNat_digit_ne_dot (d : Nat) (h : d < 10) : Char.ofNat (48 + d) ≠ '.' := by
  interval_cases d <;> decide

theorem ofNat_digit_ne_sign (d : Nat) (h : d < 10) :
    Char.ofNat (48 + d) ≠ '+' ∧ Char.ofNat (48 + d) ≠ '-' := by
  interval_cases d <;> decide

theorem parseUintLoop_formatUintAux (fuel : Nat) :
    ∀ (n : Nat) (acc : GoString), n < fuel → n ≤ 2 ^ 64 - 1 →
      parseUintLoop 0 (formatUintAux fuel n acc) = parseUintLoop n acc := by
  induction fuel with
  | zero => intro n acc h; omega
  | succ f ih =>
    intro n acc hn hmax
    unfold formatUintAux
    have hd : n % 10 < 10 := Nat.mod_lt _ (by decide)
    by_cases h0 : n / 10 = 0
    · have hlt : n < 10 := by omega
      have hmod : n % 10 = n := Nat.mod_eq_of_lt hlt
      simp only [h0, if_true]
      rw [parseUintLoop, digitVal_ofNat _ hd, hmod]
      simp
      intro hbig
      omega
    · simp only [h0, if_false]
      rw [ih (n / 10) _ (by omega) (by omega)]
      rw [parseUintLoop, digitVal_ofNat _ hd]
      have h1 : ¬ (n / 10 ≥ (2 ^ 64 - 1) / 10 + 1) := by omega
      have h2 : ¬ (n / 10 * 10 + n % 10 > 2 ^ 64 - 1) := by omega
      have h3 : n / 10 * 10 + n % 10 = n := by omega
      rw [h3] at h2
      simp only [h1, h2, if_false, h3]

theorem formatUintAux_ne_nil (fuel n : Nat) (acc : GoString) (h : 0 < fuel) :
    formatUintAux fuel n acc ≠ [] := by
  induction fuel generalizing n acc with
  | zero => omega
  | succ f ih =>
    unfold formatUintAux
    split
    · simp
    · cases f with
      | zero => simp [formatUintAux]
      | succ g => exact ih _ _ (by omega)

theorem formatUintAux_mem (fuel : Nat) :
    ∀ (n : Nat) (acc : GoString) (c : Char), c ∈ formatUintAux fuel n acc →
      c ∈ acc ∨ ∃ d, d < 10 ∧ c = Char.ofNat (48 + d) := by
  induction fuel with
  | zero => intro n acc c h; exact Or.inl h
  | succ f ih =>
    intro n acc c h
    unfold formatUintAux at h
    have hd : n % 10 < 10 := Nat.mod_lt _ (by decide)
    split at h
    · rcases List.mem_cons.mp h with h | h
      · exact Or.inr ⟨_, hd, h⟩
      · exact Or.inl h
    · rcases ih _ _ _ h with h | h
      · rcases List.mem_cons.mp h with h | h
        · exact Or.inr ⟨_, hd, h⟩
        · exact Or.inl h
      · exact Or.inr h

theorem decimal_mem (n : Nat) (c : Char) (h : c ∈ decimal n) :
    ∃ d, d < 10 ∧ c = Char.ofNat (48 + d) := by
  rcases formatUintAux_mem _ _ _ _ h with h | h
  · simp at h
  · exact h

theorem dot_not_mem_decimal (n : Nat) : '.' ∉ decimal n := by
  intro h
  obtain ⟨d, hd, hc⟩ := decimal_mem n _ h
  exact ofNat_digit_ne_dot d hd hc.symm

theorem parseUint_decimal (n : Nat) (h : n ≤ 2 ^ 64 - 1) : parseUint (decimal n) = Except.ok n := by
  have hne : decimal n ≠ [] := formatUintAux_ne_nil _ _ _ (by omega)
  have hloop : parseUintLoop 0 (decimal n) = Except.ok n := by
    unfold decimal
    rw [parseUintLoop_formatUintAux (n + 1) n [] (by omega) h]
    rfl
  unfold parseUint
  split
  · exact absurd (by assumption) hne
  · exact hloop

/-- Go `strconv.Atoi` accepts the decimal representation of every natural
number in the `int` range and returns that number. -/
theorem Atoi_decimal (n : Nat) (h : n < 2 ^ 63) : Atoi (decimal n) = Except.ok (n : Int) := by
  have hne : decimal n ≠ [] := formatUintAux_ne_nil _ _ _ (by omega)
  have hp : parseUint (decimal n) = Except.ok n := parseUint_decimal n (by omega)
  unfold Atoi parseInt
  cases hdec : decimal n with
  | nil => exact absurd hdec hne
  | cons c cs =>
    have hc : c ∈ decimal n := by rw [hdec]; exact List.mem_cons_self _ _
    obtain ⟨d, hd, hcd⟩ := decimal_mem n c hc
    have hs := ofNat_digit_ne_sign d hd
    rw [← hcd] at hs
    rw [hdec] at hp
    have h63 : ¬ ((9223372036854775808 : Nat) ≤ n) := by omega
    simp [hs.1, hs.2, hp, h63]

/-! ## Base64 text and the wire format -/

theorem b64Char_mem (n : Nat) : b64Char n ∈ encodeStd := by
  unfold b64Char
  by_cases h : n < encodeStd.length
  · rw [List.getD_eq_getElem _ _ h]
    exact List.getElem_mem h
  · rw [List.getD_eq_default _ _ (by omega)]
    decide

theorem b64Char_ne_dot (n : Nat) : b64Char n ≠ '.' := by
  intro h
  have hm := b64Char_mem n
  rw [h] at hm
  revert hm
  decide

theorem dot_not_mem_stdEncodeToString (b : List Nat) : '.' ∉ stdEncodeToString b := by
  induction b using stdEncodeToString.induct with
  | case1 => simp [stdEncodeToString]
  | case2 x =>
    simp only [stdEncodeToString, List.mem_cons, List.mem_singleton, not_or]
    exact ⟨(b64Char_ne_dot _).symm, (b64Char_ne_dot _).symm, by decide, by decide, by simp⟩
  | case3 x y =>
    simp only [stdEncodeToString, List.mem_cons, List.mem_singleton, not_or]
    exact ⟨(b64Char_ne_dot _).symm, (b64Char_ne_dot _).symm, (b64Char_ne_dot _).symm,
      by decide, by simp⟩
  | case4 x y z rest ih =>
    simp only [stdEncodeToString, List.mem_cons, not_or]
    exact ⟨(b64Char_ne_dot _).symm, (b64Char_ne_dot _).symm, (b64Char_ne_dot _).symm,
      (b64Char_ne_dot _).symm, ih⟩

/-- On a string `pfx.D.B` whose three segments hold no dot, the parser
reaches `strconv.Atoi` on `D`; when `Atoi` accepts `D` it returns version
`0`, `nil` content and the `nil` error, whatever `B` is. -/
theorem ParseVersionAndContent_segments (pfx d b : GoString) (n : Int)
    (hp : '.' ∉ pfx) (hd : '.' ∉ d) (hb : '.' ∉ b) (hn : Atoi d = Except.ok n) :
    ParseVersionAndContent pfx (pfx ++ '.' :: (d ++ '.' :: b)) = (0, none, none) := by
  rw [ParseVersionAndContent_eq, stringsSplit_three pfx d b '.' hp hd hb]
  simp [hn]

/-- On every value in wire format the parser returns version `0`, `nil`
content and the `nil` error. -/
theorem ParseVersionAndContent_encodeVersioned (pfx : GoString) (v : Nat) (b : List Nat)
    (hp : '.' ∉ pfx) (hv : v < 2 ^ 63) :
    ParseVersionAndContent pfx (encodeVersioned pfx v b) = (0, none, none) :=
  ParseVersionAndContent_segments pfx (decimal v) (stdEncodeToString b) v hp
    (dot_not_mem_decimal v) (dot_not_mem_stdEncodeToString b) (Atoi_decimal v hv)

/-! ## The encoded-value parser: claims C1 to C5 -/

/-- C1 (round trip of the parser) fails on the code. The wire-format
value `SK.7.AAEC` carries version `7` and the payload bytes `0, 1, 2`
(their standard base64 is `AAEC`, which the decoder accepts), so the
parser should return version `7`, that payload and no error. The code
returns version `0`, `nil` content and the `nil` error: the check
`version < 1` reads the still-zero named result and returns before the
version is assigned and before the payload is decoded. -/
theorem ParseVersionAndContent_roundtrip_lost :
    encodeVersioned "SK".toList 7 [0, 1, 2] = "SK.7.AAEC".toList ∧
    Atoi "7".toList = Except.ok 7 ∧
    stdDecodeString "AAEC".toList = Except.ok [0, 1, 2] ∧
    ParseVersionAndContent "SK".toList "SK.7.AAEC".toList = (0, none, none) ∧
    ParseVersionAndContent "SK".toList "SK.7.AAEC".toList ≠ (7, some [0, 1, 2], none) := by
  refine ⟨by decide, rfl, rfl, by decide, by decide⟩

/-- C2 (version `0` is rejected) fails on the code: for the string
`SK.0.AAAA`, whose version segment is `0`, the parser returns the `nil`
error, because the check `version < 1` wraps the `nil` error of a
successful `strconv.Atoi`, and wrapping `nil` yields `nil`. -/
theorem ParseVersionAndContent_version_zero_accepted :
    "SK".toList ++ ".0.".toList ++ "AAAA".toList = "SK.0.AAAA".toList ∧
    ParseVersionAndContent "SK".toList "SK.0.AAAA".toList = (0, none, none) ∧
    (ParseVersionAndContent "SK".toList "SK.0.AAAA".toList).2.2 = none := by
  refine ⟨by decide, by decide, by decide⟩

/-- C3 (a version segment that is not a non-negative integer is
rejected) fails on the code for a negative number: `SK.-1.AAAA` splits
into exactly three parts, `strconv.Atoi` accepts `-1`, and the parser
returns the `nil` error instead of rejecting a version below `1`. -/
theorem ParseVersionAndContent_negative_version_accepted :
    stringsSplit "SK.-1.AAAA".toList '.' = ["SK".toList, "-1".toList, "AAAA".toList] ∧
    Atoi "-1".toList = Except.ok (-1) ∧
    ParseVersionAndContent "SK".toList "SK.-1.AAAA".toList = (0, none, none) ∧
    (ParseVersionAndContent "SK".toList "SK.-1.AAAA".toList).2.2 = none := by
  refine ⟨by decide, rfl, by decide, by decide⟩

/-- C4 (a payload that is not valid base64 is rejected) fails on the
code: in `SK.1.!!!!` the payload `!!!!` holds no dot and is rejected by
the standard base64 decoder, yet the parser returns the `nil` error,
because it returns before the payload is decoded. -/
theorem ParseVersionAndContent_bad_base64_accepted :
    '.' ∉ "!!!!".toList ∧
    stdDecodeString "!!!!".toList = Except.error GoError.corruptInputError ∧
    "SK".toList ++ '.' :: (decimal 1 ++ '.' :: "!!!!".toList) = "SK.1.!!!!".toList ∧
    ParseVersionAndContent "SK".toList "SK.1.!!!!".toList = (0, none, none) ∧
    (ParseVersionAndContent "SK".toList "SK.1.!!!!".toList).2.2 = none := by
  refine ⟨by decide, rfl, by decide, by decide, by decide⟩

/-- C5: when splitting `str` on `.` does not yield exactly three parts,
or the first part differs from the expected prefix, the parser returns
version `0`, `nil` content and a non-nil error, namely
`errors.New("invalid string")`. -/
theorem ParseVersionAndContent_bad_shape (pfx str : GoString)
    (h : (stringsSplit str '.').length ≠ 3 ∨ (stringsSplit str '.').head? ≠ some pfx) :
    ParseVersionAndContent pfx str = (0, none, some (GoError.errorsNew "invalid string")) ∧
    (ParseVersionAndContent pfx str).2.2 ≠ none := by
  have hcond : (stringsSplit str '.').length ≠ 3 ∨ (stringsSplit str '.').getD 0 [] ≠ pfx := by
    rcases h with h | h
    · exact Or.inl h
    · right
      intro hg
      apply h
      cases hs : stringsSplit str '.' with
      | nil => exact absurd hs (stringsSplit_ne_nil str '.')
      | cons a l =>
        rw [hs] at hg
        simpa using hg
  have heq : ParseVersionAndContent pfx str =
      (0, none, some (GoError.errorsNew "invalid string")) := by
    rw [ParseVersionAndContent_eq, if_pos hcond]
  exact ⟨heq, by rw [heq]; simp⟩

/-- Witness of C5: the string `SK.1` has two parts only. -/
theorem ParseVersionAndContent_bad_shape_witness :
    ((stringsSplit "SK.1".toList '.').length ≠ 3 ∨
      (stringsSplit "SK.1".toList '.').head? ≠ some "SK".toList) ∧
    (ParseVersionAndContent "SK".toList "SK.1".toList =
        (0, none, some (GoError.errorsNew "invalid string")) ∧
      (ParseVersionAndContent "SK".toList "SK.1".toList).2.2 ≠ none) :=
  ⟨Or.inl (by decide), ParseVersionAndContent_bad_shape "SK".toList "SK.1".toList
    (Or.inl (by decide))⟩

/-! ## `sort.Slice` and `parseTokens`: claim C10 -/

theorem insertSorted_perm {α : Type} (less : α → α → Bool) (x : α) (l : List α) :
    (insertSorted less x l).Perm (x :: l) := by
  induction l with
  | nil => simp [insertSorted]
  | cons y ys ih =>
    unfold insertSorted
    split
    · exact List.Perm.refl _
    · exact (List.Perm.cons y ih).trans (List.Perm.swap x y ys)

theorem foldl_insertSorted_perm {α : Type} (less : α → α → Bool) (l : List α) :
    ∀ acc : List α, (l.foldl (fun acc e => insertSorted less e acc) acc).Perm (acc ++ l) := by
  induction l with
  | nil => intro acc; simp
  | cons x xs ih =>
    intro acc
    simp only [List.foldl_cons]
    refine (ih (insertSorted less x acc)).trans ?_
    have h1 : (insertSorted less x acc ++ xs).Perm ((x :: acc) ++ xs) :=
      List.Perm.append_right xs (insertSorted_perm less x acc)
    refine h1.trans ?_
    simp only [List.cons_append]
    exact List.perm_middle.symm

/-- The result of `sort.Slice` is a permutation of its input. -/
theorem sortSlice_perm {α : Type} (less : α → α → Bool) (l : List α) :
    (sortSlice less l).Perm l := by
  have h := foldl_insertSorted_perm less l []
  simpa [sortSlice] using h

theorem insertSorted_pairwise {α : Type} (key : α → Nat) (x : α) (l : List α)
    (h : l.Pairwise (fun a b => key a ≤ key b)) :
    (insertSorted (fun a b => decide (key a < key b)) x l).Pairwise
      (fun a b => key a ≤ key b) := by
  induction l with
  | nil => simp [insertSorted]
  | cons y ys ih =>
    rw [List.pairwise_cons] at h
    unfold insertSorted
    by_cases hxy : key x < key y
    · simp only [hxy, decide_True, if_true]
      refine List.pairwise_cons.mpr ⟨?_, List.pairwise_cons.mpr h⟩
      intro a ha
      rcases List.mem_cons.mp ha with ha | ha
      · rw [ha]; omega
      · have := h.1 a ha
        omega
    · simp only [hxy, decide_False]
      refine List.pairwise_cons.mpr ⟨?_, ih h.2⟩
      intro a ha
      have hp := (insertSorted_perm (fun a b => decide (key a < key b)) x ys).mem_iff.mp ha
      rcases List.mem_cons.mp hp with ha | ha
      · rw [ha]; omega
      · exact h.1 a ha

theorem foldl_insertSorted_pairwise {α : Type} (key : α → Nat) (l : List α) :
    ∀ acc : List α, acc.Pairwise (fun a b => key a ≤ key b) →
      (l.foldl (fun acc e => insertSorted (fun a b => decide (key a < key b)) e acc)
        acc).Pairwise (fun a b => key a ≤ key b) := by
  induction l with
  | nil => intro acc h; simpa using h
  | cons x xs ih =>
    intro acc h
    simp only [List.foldl_cons]
    exact ih _ (insertSorted_pairwise key x acc h)

/-- The result of `sort.Slice` with the comparison `key a < key b` is
ordered by ascending key. -/
theorem sortSlice_pairwise {α : Type} (key : α → Nat) (l : List α) :
    (sortSlice (fun a b => decide (key a < key b)) l).Pairwise
      (fun a b => key a ≤ key b) :=
  foldl_insertSorted_pairwise key l [] List.Pairwise.nil

/-- When the loop of `parseTokens` ends without error, it has appended
to the slice one token per input string, in input order. -/
theorem parseTokensLoop_ok (tokens : List GoString) :
    ∀ (acc res : List VersionedUpdateToken), parseTokensLoop tokens acc = (res, none) →
      res = acc ++ tokens.map (fun s =>
        VersionedUpdateToken.mk (ParseVersionAndContent "UT".toList s).1
          (ParseVersionAndContent "UT".toList s).2.1) := by
  induction tokens with
  | nil =>
    intro acc res h
    simp only [parseTokensLoop, Prod.mk.injEq] at h
    simp [h.1]
  | cons s rest ih =>
    intro acc res h
    unfold parseTokensLoop at h
    rcases hp : ParseVersionAndContent "UT".toList s with ⟨v, c, e⟩
    rw [hp] at h
    cases e with
    | some e0 => simp [errorsWrap] at h
    | none =>
      simp only at h
      rw [ih _ _ h, List.map_cons, hp]
      simp

/-- When `parseTokens` ends without error, its result is a permutation of
the individually parsed inputs and is ordered by ascending version. -/
theorem parseTokens_perm_pairwise (tokens : List GoString)
    (h : (parseTokens tokens).2 = none) :
    (parseTokens tokens).1.Perm (tokens.map (fun s =>
        VersionedUpdateToken.mk (ParseVersionAndContent "UT".toList s).1
          (ParseVersionAndContent "UT".toList s).2.1)) ∧
    (parseTokens tokens).1.Pairwise (fun a b => a.Version ≤ b.Version) := by
  unfold parseTokens at h ⊢
  by_cases h0 : tokens.length = 0
  · have hnil : tokens = [] := List.length_eq_zero.mp h0
    subst hnil
    simp
  · simp only [h0, if_false] at h ⊢
    rcases hl : parseTokensLoop tokens [] with ⟨res, e⟩
    rw [hl] at h
    cases e with
    | some e0 => simp at h
    | none =>
      simp only
      have hres := parseTokensLoop_ok tokens [] res hl
      simp only [List.nil_append] at hres
      refine ⟨?_, sortSlice_pairwise (fun t => t.Version) res⟩
      rw [← hres]
      exact sortSlice_perm _ res

/-- C10: when `parseTokens` succeeds, its result holds exactly one
parsed token per input string (it is a permutation of the individually
parsed inputs, duplicates kept) and is ordered by ascending version: the
versions are pairwise ascending, so each token's version is at most the
version of the token after it. -/
theorem parseTokens_sorted_perm (tokens : List GoString)
    (h : (parseTokens tokens).2 = none) :
    (parseTokens tokens).1.Perm (tokens.map (fun s =>
        VersionedUpdateToken.mk (ParseVersionAndContent "UT".toList s).1
          (ParseVersionAndContent "UT".toList s).2.1)) ∧
    (parseTokens tokens).1.length = tokens.length ∧
    (parseTokens tokens).1.Pairwise (fun a b => a.Version ≤ b.Version) ∧
    (parseTokens tokens).1.Chain' (fun a b => a.Version ≤ b.Version) := by
  have key := parseTokens_perm_pairwise tokens h
  refine ⟨key.1, ?_, key.2, List.Pairwise.chain' key.2⟩
  simpa using key.1.length_eq

/-- Witness of C10: two update tokens given in descending order. -/
theorem parseTokens_sorted_perm_witness :
    (parseTokens ["UT.3.AAAA".toList, "UT.2.AAAA".toList]).2 = none ∧
    ((parseTokens ["UT.3.AAAA".toList, "UT.2.AAAA".toList]).1.Perm
        (["UT.3.AAAA".toList, "UT.2.AAAA".toList].map (fun s =>
          VersionedUpdateToken.mk (ParseVersionAndContent "UT".toList s).1
            (ParseVersionAndContent "UT".toList s).2.1)) ∧
      (parseTokens ["UT.3.AAAA".toList, "UT.2.AAAA".toList]).1.length =
        ["UT.3.AAAA".toList, "UT.2.AAAA".toList].length ∧
      (parseTokens ["UT.3.AAAA".toList, "UT.2.AAAA".toList]).1.Pairwise
        (fun a b => a.Version ≤ b.Version) ∧
      (parseTokens ["UT.3.AAAA".toList, "UT.2.AAAA".toList]).1.Chain'
        (fun a b => a.Version ≤ b.Version)) :=
  ⟨by decide, parseTokens_sorted_perm ["UT.3.AAAA".toList, "UT.2.AAAA".toList] (by decide)⟩

/-! ## What `CreateContext` computes -/

theorem ParseVersionAndContent_version (pfx str : GoString) :
    (ParseVersionAndContent pfx str).1 = 0 := by
  rw [ParseVersionAndContent_eq]
  split
  · rfl
  · split <;> rfl

theorem ParseVersionAndContent_content (pfx str : GoString) :
    (ParseVersionAndContent pfx str).2.1 = none := by
  rw [ParseVersionAndContent_eq]
  split
  · rfl
  · split <;> rfl

/-- Every token in the result of `parseTokens` has version `0` and `nil`
payload. -/
theorem parseTokens_mem (tokens : List GoString) (t : VersionedUpdateToken)
    (ht : t ∈ (parseTokens tokens).1) : t = VersionedUpdateToken.mk 0 none := by
  cases he : (parseTokens tokens).2 with
  | none =>
    have hp := (parseTokens_perm_pairwise tokens he).1
    have hm := hp.mem_iff.mp ht
    obtain ⟨s, _, hs⟩ := List.mem_map.mp hm
    rw [← hs, ParseVersionAndContent_version, ParseVersionAndContent_content]
  | some e =>
    exfalso
    unfold parseTokens at he ht
    by_cases h0 : tokens.length = 0
    · simp [h0] at he
    · simp only [h0, if_false] at he ht
      rcases hl : parseTokensLoop tokens [] with ⟨res, e1⟩
      rw [hl] at he ht
      cases e1 with
      | none => simp at he
      | some e2 => simp at ht

theorem parseTokensLoop_err_none (tokens : List GoString)
    (h : ∀ s ∈ tokens, (ParseVersionAndContent "UT".toList s).2.2 = none) :
    ∀ acc : List VersionedUpdateToken, (parseTokensLoop tokens acc).2 = none := by
  induction tokens with
  | nil => intro acc; rfl
  | cons s rest ih =>
    intro acc
    unfold parseTokensLoop
    have hs := h s (List.mem_cons_self _ _)
    rcases hp : ParseVersionAndContent "UT".toList s with ⟨v, c, e⟩
    rw [hp] at hs
    simp only at hs
    subst hs
    simp only
    exact ih (fun s1 h1 => h s1 (List.mem_cons_of_mem _ h1)) _

/-- When the parser accepts every token string, `parseTokens` ends without
error. -/
theorem parseTokens_err_none (tokens : List GoString)
    (h : ∀ s ∈ tokens, (ParseVersionAndContent "UT".toList s).2.2 = none) :
    (parseTokens tokens).2 = none := by
  unfold parseTokens
  by_cases h0 : tokens.length = 0
  · simp [h0]
  · simp only [h0, if_false]
    have hl := parseTokensLoop_err_none tokens h []
    rcases hp : parseTokensLoop tokens [] with ⟨res, e⟩
    rw [hp] at hl
    simp only at hl
    subst hl
    rfl

/-- The rotation loop stops at its first token when that token has
version `0` and the current version is `0`: the continuity check wants
version `1`. No rotation is invoked. -/
theorem rotateLoop_version_zero {Client : Type} (phe : PHE Client)
    (tokens : List VersionedUpdateToken) (st : LoopState Client)
    (hne : tokens ≠ []) (hz : ∀ t ∈ tokens, t = VersionedUpdateToken.mk 0 none)
    (hv : st.currentVersion = 0) :
    rotateLoop phe tokens st =
      Except.error (some (GoError.fmtErrorf "incorrect token version %d" 0)) := by
  cases tokens with
  | nil => exact absurd rfl hne
  | cons t rest =>
    have ht := hz t (List.mem_cons_self _ _)
    subst ht
    unfold rotateLoop
    simp [hv]

/-- What `CreateContext` computes, branch by branch. Both keys parse to
version `0` with `nil` content, so the version comparison never fails,
the initial client is built from `nil` keys, and any parsed update token
stops the rotation loop at its continuity check. -/
theorem CreateContext_eq {Client : Type} (phe : PHE Client)
    (accessToken appId clientSecretKey serverPublicKey : GoString)
    (updateTokens : List GoString) :
    CreateContext phe accessToken appId clientSecretKey serverPublicKey updateTokens =
      if appId.length ≠ 32 ∨ clientSecretKey = [] ∨ serverPublicKey = [] ∨ accessToken = [] then
        (none, some (GoError.errorsNew "all parameters are mandatory"))
      else
        match hexDecodeString appId with
        | Except.error _ => (none, some (GoError.errorsNew "invalid appID"))
        | Except.ok _ =>
          match (ParseVersionAndContent "SK".toList clientSecretKey).2.2 with
          | some err => (none, some (GoError.withMessage err "invalid secret key"))
          | none =>
            match (ParseVersionAndContent "PK".toList serverPublicKey).2.2 with
            | some err => (none, some (GoError.withMessage err "invalid public key"))
            | none =>
              match phe.NewClient none none with
              | Except.error err =>
                (none, some (GoError.withMessage err "could not create PHE client"))
              | Except.ok pheClient =>
                match (parseTokens updateTokens).2 with
                | some err =>
                  (none, some (GoError.withMessage err "could not parse update tokens"))
                | none =>
                  if (parseTokens updateTokens).1.length > 0 then
                    (none, some (GoError.fmtErrorf "incorrect token version %d" 0))
                  else
                    (some (Context.mk accessToken appId [(0, pheClient)] none 0), none) := by
  unfold CreateContext
  split
  · rfl
  · split
    · rfl
    · have hsv := ParseVersionAndContent_version "SK".toList clientSecretKey
      have hsc := ParseVersionAndContent_content "SK".toList clientSecretKey
      have hpv := ParseVersionAndContent_version "PK".toList serverPublicKey
      have hpc := ParseVersionAndContent_content "PK".toList serverPublicKey
      rcases hsk : ParseVersionAndContent "SK".toList clientSecretKey with ⟨v1, c1, e1⟩
      rcases hpk : ParseVersionAndContent "PK".toList serverPublicKey with ⟨v2, c2, e2⟩
      rw [hsk] at hsv hsc
      rw [hpk] at hpv hpc
      simp only at hsv hsc hpv hpc
      subst hsv hsc hpv hpc
      cases e1 with
      | some err1 => simp [errorsWrap]
      | none =>
        cases e2 with
        | some err2 => simp [errorsWrap]
        | none =>
          simp only [ne_eq, not_true_eq_false, if_false]
          cases hnc : phe.NewClient none none with
          | error err => simp [errorsWrap]
          | ok pheClient =>
            simp only
            have hmem := parseTokens_mem updateTokens
            rcases hpt : parseTokens updateTokens with ⟨tokens, e3⟩
            rw [hpt] at hmem
            simp only at hmem
            cases e3 with
            | some err3 => simp [errorsWrap]
            | none =>
              simp only
              by_cases hlen : tokens.length > 0
              · have hne : tokens ≠ [] := by
                  intro h0
                  rw [h0] at hlen
                  simp at hlen
                simp only [hlen, if_true]
                rw [rotateLoop_version_zero phe tokens _ hne hmem rfl]
              · simp only [hlen, if_false]
                rfl

/-! ## Input validation: claim C9 -/

theorem fromHexChar_mem_hexDigits (c : Char) (v : Nat) (h : fromHexChar c = some v) :
    c ∈ hexDigits := by
  have hc : c = Char.ofNat c.toNat := (Char.ofNat_toNat c).symm
  unfold fromHexChar at h
  simp only at h
  generalize c.toNat = n at h hc
  by_cases h1 : 48 ≤ n ∧ n ≤ 57
  · obtain ⟨a, b⟩ := h1
    rw [hc]
    interval_cases n <;> decide
  · by_cases h2 : 97 ≤ n ∧ n ≤ 102
    · obtain ⟨a, b⟩ := h2
      rw [hc]
      interval_cases n <;> decide
    · by_cases h3 : 65 ≤ n ∧ n ≤ 70
      · obtain ⟨a, b⟩ := h3
        rw [hc]
        interval_cases n <;> decide
      · simp [h1, h2, h3] at h

/-- Go `hex.DecodeString` succeeds only on strings of hexadecimal digits. -/
theorem hexDecodeString_ok_mem (s : GoString) :
    ∀ bs : List Nat, hexDecodeString s = Except.ok bs → ∀ c ∈ s, c ∈ hexDigits := by
  induction s using hexDecodeString.induct with
  | case1 => intro bs _ c hc; simp at hc
  | case2 c0 h0 => intro bs h; simp [hexDecodeString, h0] at h
  | case3 c0 v0 hv0 => intro bs h; simp [hexDecodeString, hv0] at h
  | case4 p q rest hp => intro bs h; simp [hexDecodeString, hp] at h
  | case5 p q rest a ha hq => intro bs h; simp [hexDecodeString, ha, hq] at h
  | case6 p q rest a ha b hb e he ih => intro bs h; simp [hexDecodeString, ha, hb, he] at h
  | case7 p q rest a ha b hb bs0 hbs0 ih =>
    intro bs _ c hc
    rcases List.mem_cons.mp hc with hc | hc
    · rw [hc]; exact fromHexChar_mem_hexDigits p a ha
    · rcases List.mem_cons.mp hc with hc | hc
      · rw [hc]; exact fromHexChar_mem_hexDigits q b hb
      · exact ih bs0 hbs0 c hc

/-- C9: for every PHE library and every choice of the other arguments,
`CreateContext` returns a nil `Context` and a non-nil error whenever
`appId` is not exactly 32 characters long, or holds a character that is
not a hexadecimal digit, or one of `accessToken`, `clientSecretKey`,
`serverPublicKey` is empty; the error is one of the two validation
errors, hence not a key-parsing error. -/
theorem CreateContext_validation {Client : Type} (phe : PHE Client)
    (accessToken appId clientSecretKey serverPublicKey : GoString)
    (updateTokens : List GoString)
    (h : appId.length ≠ 32 ∨ (∃ c ∈ appId, c ∉ hexDigits) ∨ accessToken = [] ∨
      clientSecretKey = [] ∨ serverPublicKey = []) :
    (CreateContext phe accessToken appId clientSecretKey serverPublicKey updateTokens).1 = none ∧
    ((CreateContext phe accessToken appId clientSecretKey serverPublicKey updateTokens).2 =
        some (GoError.errorsNew "all parameters are mandatory") ∨
      (CreateContext phe accessToken appId clientSecretKey serverPublicKey updateTokens).2 =
        some (GoError.errorsNew "invalid appID")) := by
  unfold CreateContext
  by_cases hm : appId.length ≠ 32 ∨ clientSecretKey = [] ∨ serverPublicKey = [] ∨
      accessToken = []
  · rw [if_pos hm]
    exact ⟨rfl, Or.inl rfl⟩
  · rw [if_neg hm]
    cases hx : hexDecodeString appId with
    | error e => exact ⟨rfl, Or.inr rfl⟩
    | ok bs =>
      exfalso
      simp only [not_or] at hm
      rcases h with h | h | h | h | h
      · exact hm.1 h
      · obtain ⟨c, hc, hnot⟩ := h
        exact hnot (hexDecodeString_ok_mem appId bs hx c hc)
      · exact hm.2.2.2 h
      · exact hm.2.1 h
      · exact hm.2.2.1 h

/-- Witness of C9: an application identifier of 31 characters. -/
theorem CreateContext_validation_witness :
    ("0123456789abcdef0123456789ABCDE".toList.length ≠ 32 ∨
      (∃ c ∈ "0123456789abcdef0123456789ABCDE".toList, c ∉ hexDigits) ∨
      "token".toList = [] ∨ "SK.1.AAAA".toList = [] ∨ "PK.1.AAAA".toList = []) ∧
    ((CreateContext totalPHE "token".toList "0123456789abcdef0123456789ABCDE".toList
        "SK.1.AAAA".toList "PK.1.AAAA".toList []).1 = none ∧
      ((CreateContext totalPHE "token".toList "0123456789abcdef0123456789ABCDE".toList
          "SK.1.AAAA".toList "PK.1.AAAA".toList []).2 =
          some (GoError.errorsNew "all parameters are mandatory") ∨
        (CreateContext totalPHE "token".toList "0123456789abcdef0123456789ABCDE".toList
          "SK.1.AAAA".toList "PK.1.AAAA".toList []).2 =
          some (GoError.errorsNew "invalid appID"))) :=
  ⟨Or.inl (by decide),
    CreateContext_validation totalPHE "token".toList "0123456789abcdef0123456789ABCDE".toList
      "SK.1.AAAA".toList "PK.1.AAAA".toList [] (Or.inl (by decide))⟩

/-! ## Key versions and the rotation chain: claims C6 to C8 -/

theorem fromHexChar_of_mem_hexDigits : ∀ c ∈ hexDigits, (fromHexChar c).isSome = true := by
  decide

/-- Go `hex.DecodeString` accepts every string of hexadecimal digits of even
length. -/
theorem hexDecodeString_ok_of_hexDigits (s : GoString) :
    s.length % 2 = 0 → (∀ c ∈ s, c ∈ hexDigits) → ∃ bs, hexDecodeString s = Except.ok bs := by
  induction s using hexDecodeString.induct with
  | case1 => intro _ _; exact ⟨[], rfl⟩
  | case2 c0 h0 => intro hl; simp at hl
  | case3 c0 v0 hv0 => intro hl; simp at hl
  | case4 p q rest hp =>
    intro _ hm
    have := fromHexChar_of_mem_hexDigits p (hm p (List.mem_cons_self _ _))
    simp [hp] at this
  | case5 p q rest a ha hq =>
    intro _ hm
    have := fromHexChar_of_mem_hexDigits q (hm q (by simp))
    simp [hq] at this
  | case6 p q rest a ha b hb e he ih =>
    intro hl hm
    have hl2 : rest.length % 2 = 0 := by
      simp only [List.length_cons] at hl
      omega
    obtain ⟨bs, hbs⟩ := ih hl2 (fun c hc => hm c (by simp [hc]))
    rw [he] at hbs
    cases hbs
  | case7 p q rest a ha b hb bs0 hbs0 ih =>
    intro _ _
    exact ⟨(a * 16 + b) :: bs0, by simp [hexDecodeString, ha, hb, hbs0]⟩

theorem encodeVersioned_ne_nil (pfx : GoString) (v : Nat) (b : List Nat) :
    encodeVersioned pfx v b ≠ [] := by
  simp [encodeVersioned]

/-- On a non-empty list of update tokens in wire format, `parseTokens`
ends without error and returns a non-empty slice. -/
theorem parseTokens_encodeVersioned (toks : List (Nat × List Nat)) (hne : toks ≠ [])
    (hT : ∀ t ∈ toks, 1 ≤ t.1 ∧ t.1 < 2 ^ 32) :
    (parseTokens (toks.map (fun t => encodeVersioned "UT".toList t.1 t.2))).2 = none ∧
    (parseTokens (toks.map (fun t => encodeVersioned "UT".toList t.1 t.2))).1.length > 0 := by
  have hok : ∀ s ∈ toks.map (fun t => encodeVersioned "UT".toList t.1 t.2),
      (ParseVersionAndContent "UT".toList s).2.2 = none := by
    intro s hs
    obtain ⟨t, ht, hts⟩ := List.mem_map.mp hs
    have hv : t.1 < 2 ^ 63 := lt_trans (hT t ht).2 (by norm_num)
    rw [← hts, ParseVersionAndContent_encodeVersioned "UT".toList t.1 t.2 (by decide) hv]
  have herr := parseTokens_err_none _ hok
  refine ⟨herr, ?_⟩
  have hlen := (parseTokens_perm_pairwise _ herr).1.length_eq
  rw [hlen]
  simp only [List.length_map]
  exact List.length_pos.mpr hne

/-- C6 (keys of different versions are rejected) fails on the code. With
a valid access token and application identifier, the secret key
`SK.2.AAAA` and the public key `PK.3.AAAA`, `CreateContext` never returns
the error "public and secret keys must have the same version", whatever
the PHE library and the update tokens: both keys parse to version `0`.
Without update tokens it goes on to build a client from `nil` keys, and
with a PHE library that accepts them it returns a `Context`. -/
theorem CreateContext_version_mismatch_undetected {Client : Type} (phe : PHE Client)
    (updateTokens : List GoString) :
    (CreateContext phe "token".toList sampleAppId "SK.2.AAAA".toList "PK.3.AAAA".toList
        updateTokens).2 ≠
      some (GoError.errorsNew "public and secret keys must have the same version") ∧
    CreateContext phe "token".toList sampleAppId "SK.2.AAAA".toList "PK.3.AAAA".toList [] =
      (match phe.NewClient none none with
       | Except.error err =>
         (none, some (GoError.withMessage err "could not create PHE client"))
       | Except.ok pheClient =>
         (some (Context.mk "token".toList sampleAppId [(0, pheClient)] none 0), none)) ∧
    CreateContext totalPHE "token".toList sampleAppId "SK.2.AAAA".toList "PK.3.AAAA".toList [] =
      (some (Context.mk "token".toList sampleAppId [(0, (none, none))] none 0), none) := by
  have hcond : ¬ (sampleAppId.length ≠ 32 ∨ "SK.2.AAAA".toList = [] ∨
      "PK.3.AAAA".toList = [] ∨ "token".toList = []) := by decide
  obtain ⟨bs, hx⟩ : ∃ bs, hexDecodeString sampleAppId = Except.ok bs :=
    hexDecodeString_ok_of_hexDigits sampleAppId (by decide) (by decide)
  have hsk : (ParseVersionAndContent "SK".toList "SK.2.AAAA".toList).2.2 = none := by decide
  have hpk : (ParseVersionAndContent "PK".toList "PK.3.AAAA".toList).2.2 = none := by decide
  refine ⟨?_, ?_, rfl⟩
  · rw [CreateContext_eq, if_neg hcond, hx]
    simp only [hsk, hpk]
    cases phe.NewClient none none with
    | error err => simp
    | ok pheClient =>
      simp only
      cases (parseTokens updateTokens).2 with
      | some e => simp
      | none =>
        simp only
        split <;> simp
  · rw [CreateContext_eq, if_neg hcond, hx]
    simp only [hsk, hpk]
    cases phe.NewClient none none with
    | error err => rfl
    | ok pheClient => rfl

/-- C7 (a full chain of three rotations is applied, in any input order)
fails on the code. With the never-failing PHE library, a valid access
token and application identifier, keys in wire format at version `1`
and update tokens in wire format for the versions `2`, `3`, `4`,
`CreateContext` returns no `Context` and the error "incorrect token
version 0", in each of the six input orders: every token parses to
version `0`, the initial version is `0`, and the loop wants version `1`. -/
theorem CreateContext_full_chain_rejected :
    encodeVersioned "SK".toList 1 [1, 2, 3] = "SK.1.AQID".toList ∧
    encodeVersioned "PK".toList 1 [4, 5, 6] = "PK.1.BAUG".toList ∧
    encodeVersioned "UT".toList 2 [7] = "UT.2.Bw==".toList ∧
    encodeVersioned "UT".toList 3 [8] = "UT.3.CA==".toList ∧
    encodeVersioned "UT".toList 4 [9] = "UT.4.CQ==".toList ∧
    List.map
        (fun ts => CreateContext totalPHE "token".toList sampleAppId "SK.1.AQID".toList
          "PK.1.BAUG".toList ts)
        [["UT.2.Bw==".toList, "UT.3.CA==".toList, "UT.4.CQ==".toList],
          ["UT.2.Bw==".toList, "UT.4.CQ==".toList, "UT.3.CA==".toList],
          ["UT.3.CA==".toList, "UT.2.Bw==".toList, "UT.4.CQ==".toList],
          ["UT.3.CA==".toList, "UT.4.CQ==".toList, "UT.2.Bw==".toList],
          ["UT.4.CQ==".toList, "UT.2.Bw==".toList, "UT.3.CA==".toList],
          ["UT.4.CQ==".toList, "UT.3.CA==".toList, "UT.2.Bw==".toList]] =
      List.replicate 6 (none, some (GoError.fmtErrorf "incorrect token version %d" 0)) := by
  refine ⟨by decide, by decide, by decide, by decide, by decide, rfl⟩

/-- C8: assume the initial client construction succeeds, on a valid
access token and application identifier. For every initial key pair in
wire format at version `V` and every non-empty list of update tokens in
wire format whose versions, sorted ascending, are not exactly
`V+1, ..., V+n`, `CreateContext` returns no `Context` and a non-nil
error, and the error is the continuity error "incorrect token version".
No rotation step runs before it. -/
theorem CreateContext_broken_chain {Client : Type} (phe : PHE Client)
    (accessToken appId : GoString) (V : Nat) (skBytes pkBytes : List Nat)
    (toks : List (Nat × List Nat))
    (hat : accessToken ≠ []) (hlen : appId.length = 32) (hhex : ∀ c ∈ appId, c ∈ hexDigits)
    (hV : 1 ≤ V ∧ V < 2 ^ 32) (hne : toks ≠ [])
    (hT : ∀ t ∈ toks, 1 ≤ t.1 ∧ t.1 < 2 ^ 32)
    (_hchain : sortSlice (fun a b => decide (a < b)) (toks.map Prod.fst) ≠
      List.range' (V + 1) toks.length)
    (hclient : ∃ pheClient,
      phe.NewClient (ParseVersionAndContent "SK".toList (encodeVersioned "SK".toList V skBytes)).2.1
        (ParseVersionAndContent "PK".toList (encodeVersioned "PK".toList V pkBytes)).2.1 =
        Except.ok pheClient) :
    (CreateContext phe accessToken appId (encodeVersioned "SK".toList V skBytes)
        (encodeVersioned "PK".toList V pkBytes)
        (toks.map (fun t => encodeVersioned "UT".toList t.1 t.2))).1 = none ∧
    (CreateContext phe accessToken appId (encodeVersioned "SK".toList V skBytes)
        (encodeVersioned "PK".toList V pkBytes)
        (toks.map (fun t => encodeVersioned "UT".toList t.1 t.2))).2 ≠ none ∧
    ∃ v, (CreateContext phe accessToken appId (encodeVersioned "SK".toList V skBytes)
        (encodeVersioned "PK".toList V pkBytes)
        (toks.map (fun t => encodeVersioned "UT".toList t.1 t.2))).2 =
      some (GoError.fmtErrorf "incorrect token version %d" v) := by
  have hcond : ¬ (appId.length ≠ 32 ∨ encodeVersioned "SK".toList V skBytes = [] ∨
      encodeVersioned "PK".toList V pkBytes = [] ∨ accessToken = []) := by
    simp only [not_or]
    exact ⟨fun h => h hlen, encodeVersioned_ne_nil _ _ _, encodeVersioned_ne_nil _ _ _, hat⟩
  obtain ⟨bs, hx⟩ := hexDecodeString_ok_of_hexDigits appId (by rw [hlen]) hhex
  have hV63 : V < 2 ^ 63 := lt_trans hV.2 (by norm_num)
  have hsk := ParseVersionAndContent_encodeVersioned "SK".toList V skBytes (by decide) hV63
  have hpk := ParseVersionAndContent_encodeVersioned "PK".toList V pkBytes (by decide) hV63
  obtain ⟨pheClient, hnc⟩ := hclient
  rw [hsk, hpk] at hnc
  simp only at hnc
  obtain ⟨hpt, hpl⟩ := parseTokens_encodeVersioned toks hne hT
  have hres : CreateContext phe accessToken appId (encodeVersioned "SK".toList V skBytes)
      (encodeVersioned "PK".toList V pkBytes)
      (toks.map (fun t => encodeVersioned "UT".toList t.1 t.2)) =
      (none, some (GoError.fmtErrorf "incorrect token version %d" 0)) := by
    rw [CreateContext_eq, if_neg hcond, hx]
    simp only [hsk, hpk, hnc, hpt, hpl, if_true]
  rw [hres]
  exact ⟨rfl, by simp, 0, rfl⟩

/-- Witness of C8: keys at version `1` and update tokens for the versions
`2` and `4`, with the gap at `3`, on the never-failing PHE library. -/
theorem CreateContext_broken_chain_witness :
    (CreateContext totalPHE "token".toList sampleAppId (encodeVersioned "SK".toList 1 [1, 2, 3])
        (encodeVersioned "PK".toList 1 [4, 5, 6])
        ([(2, [7]), (4, [9])].map (fun t => encodeVersioned "UT".toList t.1 t.2))).1 = none ∧
    (CreateContext totalPHE "token".toList sampleAppId (encodeVersioned "SK".toList 1 [1, 2, 3])
        (encodeVersioned "PK".toList 1 [4, 5, 6])
        ([(2, [7]), (4, [9])].map (fun t => encodeVersioned "UT".toList t.1 t.2))).2 ≠ none ∧
    ∃ v, (CreateContext totalPHE "token".toList sampleAppId
        (encodeVersioned "SK".toList 1 [1, 2, 3]) (encodeVersioned "PK".toList 1 [4, 5, 6])
        ([(2, [7]), (4, [9])].map (fun t => encodeVersioned "UT".toList t.1 t.2))).2 =
      some (GoError.fmtErrorf "incorrect token version %d" v) :=
  CreateContext_broken_chain totalPHE "token".toList sampleAppId 1 [1, 2, 3] [4, 5, 6]
    [(2, [7]), (4, [9])] (by decide) (by decide) (by decide) (by decide) (by decide)
    (by decide) (by decide) ⟨(none, none), rfl⟩

/-! ## Errors of `parseTokens`: claim C11 -/

/-- When the parser rejects one of the token strings, the loop of
`parseTokens` returns the `nil` slice and a non-nil error. -/
theorem parseTokensLoop_err_some (tokens : List GoString)
    (h : ∃ s ∈ tokens, (ParseVersionAndContent "UT".toList s).2.2 ≠ none) :
    ∀ acc : List VersionedUpdateToken,
      (parseTokensLoop tokens acc).2 ≠ none ∧ (parseTokensLoop tokens acc).1 = [] := by
  induction tokens with
  | nil =>
    obtain ⟨s, hs, _⟩ := h
    simp at hs
  | cons s rest ih =>
    intro acc
    unfold parseTokensLoop
    rcases hp : ParseVersionAndContent "UT".toList s with ⟨v, c, e⟩
    cases e with
    | some e0 => simp [errorsWrap]
    | none =>
      simp only
      apply ih
      obtain ⟨s1, hs1, hbad⟩ := h
      rcases List.mem_cons.mp hs1 with hs1 | hs1
      · rw [hs1, hp] at hbad
        simp at hbad
      · exact ⟨s1, hs1, hbad⟩

/-- When `parseTokens` returns a non-nil error, its slice is `nil`. -/
theorem parseTokens_err_nil (tokens : List GoString) (h : (parseTokens tokens).2 ≠ none) :
    (parseTokens tokens).1 = [] := by
  unfold parseTokens at h ⊢
  by_cases h0 : tokens.length = 0
  · simp [h0]
  · simp only [h0, if_false] at h ⊢
    rcases hl : parseTokensLoop tokens [] with ⟨res, e⟩
    rw [hl] at h
    cases e with
    | none => simp at h
    | some e0 => rfl

/-- The error of `parseTokens` is non-nil exactly when the parser rejects
one of the token strings. -/
theorem parseTokens_err_iff (tokens : List GoString) :
    (parseTokens tokens).2 ≠ none ↔
      ∃ s ∈ tokens, (ParseVersionAndContent "UT".toList s).2.2 ≠ none := by
  constructor
  · intro h
    by_contra hno
    apply h
    apply parseTokens_err_none
    intro s hs
    by_contra hbad
    exact hno ⟨s, hs, hbad⟩
  · intro h
    have hne : tokens.length ≠ 0 := by
      obtain ⟨s, hs, _⟩ := h
      intro h0
      rw [List.length_eq_zero.mp h0] at hs
      simp at hs
    have hl := (parseTokensLoop_err_some tokens h []).1
    unfold parseTokens
    simp only [hne, if_false]
    rcases hp : parseTokensLoop tokens [] with ⟨res, e⟩
    rw [hp] at hl
    cases e with
    | none => simp at hl
    | some e0 => simp

/-- C11: for every list of token strings, `parseTokens` returns a non-nil
error if and only if `ParseVersionAndContent` with the prefix `UT`
returns an error for at least one string of the list, and then the
returned token list is `nil`; on the empty list it returns a `nil` list
and no error. -/
theorem parseTokens_error_iff_some_token_rejected (tokens : List GoString) :
    ((parseTokens tokens).2 ≠ none ↔
      ∃ s ∈ tokens, (ParseVersionAndContent "UT".toList s).2.2 ≠ none) ∧
    ((parseTokens tokens).2 ≠ none → (parseTokens tokens).1 = []) ∧
    parseTokens [] = ([], none) :=
  ⟨parseTokens_err_iff tokens, parseTokens_err_nil tokens, rfl⟩

/-- Witness of C11: a list whose second string has a version segment that
is not a number. -/
theorem parseTokens_error_iff_some_token_rejected_witness :
    (∃ s ∈ ["UT.2.AAAA".toList, "UT.x.AAAA".toList],
      (ParseVersionAndContent "UT".toList s).2.2 ≠ none) ∧
    (parseTokens ["UT.2.AAAA".toList, "UT.x.AAAA".toList]).2 ≠ none ∧
    (parseTokens ["UT.2.AAAA".toList, "UT.x.AAAA".toList]).1 = [] :=
  have hbad : ∃ s ∈ ["UT.2.AAAA".toList, "UT.x.AAAA".toList],
      (ParseVersionAndContent "UT".toList s).2.2 ≠ none :=
    ⟨"UT.x.AAAA".toList, by decide, by decide⟩
  have hmain := parseTokens_error_iff_some_token_rejected
    ["UT.2.AAAA".toList, "UT.x.AAAA".toList]
  ⟨hbad, hmain.1.mpr hbad, hmain.2.1 (hmain.1.mpr hbad)⟩

/-! ## The constructed context: claims C12 to C15 -/

/-- When `parseTokens` ends without error on a non-empty list, its result
is non-empty. -/
theorem parseTokens_length_pos (tokens : List GoString) (hne : tokens ≠ [])
    (h : (parseTokens tokens).2 = none) : (parseTokens tokens).1.length > 0 := by
  have hlen := (parseTokens_perm_pairwise tokens h).1.length_eq
  rw [hlen, List.length_map]
  exact List.length_pos.mpr hne

/-- Every successful call of `CreateContext` was given no update token,
built its only client from `nil` keys, and returns version `0`. -/
theorem CreateContext_ok {Client : Type} (phe : PHE Client)
    (accessToken appId clientSecretKey serverPublicKey : GoString)
    (updateTokens : List GoString)
    (h : (CreateContext phe accessToken appId clientSecretKey serverPublicKey
      updateTokens).2 = none) :
    updateTokens = [] ∧
    ∃ pheClient, phe.NewClient none none = Except.ok pheClient ∧
      CreateContext phe accessToken appId clientSecretKey serverPublicKey updateTokens =
        (some (Context.mk accessToken appId [(0, pheClient)] none 0), none) := by
  rw [CreateContext_eq] at h ⊢
  by_cases hcond : appId.length ≠ 32 ∨ clientSecretKey = [] ∨ serverPublicKey = [] ∨
      accessToken = []
  · rw [if_pos hcond] at h
    simp at h
  · rw [if_neg hcond] at h ⊢
    cases hx : hexDecodeString appId with
    | error e => rw [hx] at h; simp at h
    | ok bs =>
      rw [hx] at h
      simp only at h ⊢
      cases hsk : (ParseVersionAndContent "SK".toList clientSecretKey).2.2 with
      | some e => rw [hsk] at h; simp at h
      | none =>
        rw [hsk] at h
        simp only at h ⊢
        cases hpk : (ParseVersionAndContent "PK".toList serverPublicKey).2.2 with
        | some e => rw [hpk] at h; simp at h
        | none =>
          rw [hpk] at h
          simp only at h ⊢
          cases hnc : phe.NewClient none none with
          | error e => rw [hnc] at h; simp at h
          | ok pheClient =>
            rw [hnc] at h
            simp only at h ⊢
            cases hpt : (parseTokens updateTokens).2 with
            | some e => rw [hpt] at h; simp at h
            | none =>
              rw [hpt] at h
              simp only at h ⊢
              by_cases hlen : (parseTokens updateTokens).1.length > 0
              · rw [if_pos hlen] at h
                simp at h
              · rw [if_neg hlen]
                refine ⟨?_, pheClient, rfl, rfl⟩
                by_contra hne
                exact hlen (parseTokens_length_pos updateTokens hne hpt)

/-- C12 (version `0` never appears in a constructed context) fails on the
code. With the never-failing PHE library, a valid access token and
application identifier, the keys `SK.1.AAAA` and `PK.1.AAAA` and no
update token, `CreateContext` succeeds and returns a `Context` whose
`Version` is `0` and whose `PHEClients` has the single key `0`: the
parser returns version `0` for every key. -/
theorem CreateContext_returns_version_zero :
    CreateContext totalPHE "token".toList sampleAppId "SK.1.AAAA".toList "PK.1.AAAA".toList [] =
      (some (Context.mk "token".toList sampleAppId [(0, (none, none))] none 0), none) ∧
    (Context.mk "token".toList sampleAppId [(0, ((none : Bytes), (none : Bytes)))] none 0).Version
      = 0 ∧
    GoMap.keys (Context.mk "token".toList sampleAppId [(0, ((none : Bytes), (none : Bytes)))]
      none 0).PHEClients = [0] ∧
    ¬ (1 ≤ (Context.mk "token".toList sampleAppId [(0, ((none : Bytes), (none : Bytes)))]
      none 0).Version) := by
  refine ⟨rfl, rfl, rfl, by decide⟩

/-- Assigning a key that is absent from a map appends it to the keys. -/
theorem GoMap.keys_assign_of_not_mem {β : Type} (m : GoMap β) (k : Nat) (v : β)
    (h : k ∉ GoMap.keys m) : GoMap.keys (GoMap.assign m k v) = GoMap.keys m ++ [k] := by
  induction m with
  | nil => rfl
  | cons e rest ih =>
    obtain ⟨k0, v0⟩ := e
    simp only [GoMap.keys, List.map_cons, List.mem_cons, not_or] at h
    have hne : ¬ (k0 = k) := fun e => h.1 e.symm
    have ih2 := ih (by simpa [GoMap.keys] using h.2)
    simp only [GoMap.keys] at ih2
    simp [GoMap.assign, GoMap.keys, hne, ih2]

/-- After the assignment `m[k] = v` the lookup of `k` gives `v`. -/
theorem GoMap.lookup_assign_self {β : Type} (m : GoMap β) (k : Nat) (v : β) :
    GoMap.lookup (GoMap.assign m k v) k = some v := by
  induction m with
  | nil => simp [GoMap.assign, GoMap.lookup]
  | cons e rest ih =>
    obtain ⟨k0, v0⟩ := e
    by_cases hk : k0 = k
    · simp [GoMap.assign, GoMap.lookup, hk]
    · simp [GoMap.assign, GoMap.lookup, hk, ih]

/-- The assignment `m[k] = v` leaves the other keys as they were. -/
theorem GoMap.lookup_assign_of_ne {β : Type} (m : GoMap β) (k j : Nat) (v : β) (h : j ≠ k) :
    GoMap.lookup (GoMap.assign m k v) j = GoMap.lookup m j := by
  induction m with
  | nil =>
    have hkj : ¬ (k = j) := fun e => h e.symm
    simp [GoMap.assign, GoMap.lookup, hkj]
  | cons e rest ih =>
    obtain ⟨k0, v0⟩ := e
    by_cases hk : k0 = k
    · have hkj : ¬ (k = j) := fun e => h e.symm
      have hk0j : ¬ (k0 = j) := fun e => h (e.symm.trans hk)
      simp [GoMap.assign, GoMap.lookup, hk, hkj]
    · by_cases hj : k0 = j
      · subst hj
        simp [GoMap.assign, GoMap.lookup, hk]
      · simp [GoMap.assign, GoMap.lookup, hk, hj, ih]

/-- The rotation loop on a gapless chain. When the PHE library succeeds on
every call and the tokens carry the versions `v+1, ..., v+n` after the
current version `v`, in this order and without leaving `uint32`, the
loop ends without error: the current version becomes `v+n`, the keys
`v+1, ..., v+n` are added in order both to the clients and to the token
map, every token is stored under its version with its payload, and the
entries of the token map at keys up to `v` are left as they were. -/
theorem rotateLoop_chain {Client : Type} (phe : PHE Client)
    (hnew : ∀ sk pub, ∃ c, phe.NewClient sk pub = Except.ok c)
    (hrot : ∀ sk pub tok, ∃ r, phe.RotateClientKeys sk pub tok = Except.ok r)
    (tokens : List VersionedUpdateToken) :
    ∀ st : LoopState Client,
      tokens.map (fun t => t.Version) = List.range' (st.currentVersion + 1) tokens.length →
      st.currentVersion + tokens.length < 2 ^ 32 →
      (∀ k ∈ GoMap.keys st.phes, k ≤ st.currentVersion) →
      (∀ k ∈ GoMap.keys st.tokenMap, k ≤ st.currentVersion) →
      ∃ st2, rotateLoop phe tokens st = Except.ok st2 ∧
        st2.currentVersion = st.currentVersion + tokens.length ∧
        GoMap.keys st2.phes =
          GoMap.keys st.phes ++ List.range' (st.currentVersion + 1) tokens.length ∧
        GoMap.keys st2.tokenMap =
          GoMap.keys st.tokenMap ++ List.range' (st.currentVersion + 1) tokens.length ∧
        (∀ k, k ≤ st.currentVersion →
          GoMap.lookup st2.tokenMap k = GoMap.lookup st.tokenMap k) ∧
        (∀ t ∈ tokens, GoMap.lookup st2.tokenMap t.Version = some t.UpdateToken) := by
  induction tokens with
  | nil =>
    intro st _ _ _ _
    exact ⟨st, rfl, by simp, by simp, by simp, fun _ _ => rfl, by simp⟩
  | cons t rest ih =>
    intro st hver hbound hpk htk
    simp only [List.map_cons, List.length_cons, List.range'_succ, List.cons.injEq] at hver
    obtain ⟨hv, hrest⟩ := hver
    simp only [List.length_cons] at hbound
    have hmod : (st.currentVersion + 1) % 2 ^ 32 = st.currentVersion + 1 :=
      Nat.mod_eq_of_lt (by omega)
    obtain ⟨⟨nextSk, nextPub⟩, hr⟩ := hrot st.currentSk st.currentPub t.UpdateToken
    obtain ⟨nextClient, hc⟩ := hnew nextSk nextPub
    have hnp : t.Version ∉ GoMap.keys st.phes := fun h => by
      have := hpk _ h
      omega
    have hnt : t.Version ∉ GoMap.keys st.tokenMap := fun h => by
      have := htk _ h
      omega
    have hkp := GoMap.keys_assign_of_not_mem st.phes t.Version nextClient hnp
    have hkt := GoMap.keys_assign_of_not_mem st.tokenMap t.Version t.UpdateToken hnt
    obtain ⟨st2, hloop, hcv, hphes, htm, hkeep, hall⟩ :=
      ih (LoopState.mk (st.phes.assign t.Version nextClient) nextSk nextPub t.Version
          (st.tokenMap.assign t.Version t.UpdateToken))
        (by simpa [hv] using hrest)
        (by simp only [hv]; omega)
        (by
          intro k hk
          simp only [hkp, List.mem_append, List.mem_singleton] at hk
          rcases hk with hk | hk
          · have := hpk k hk
            simp only [hv]
            omega
          · simp only [hk, le_refl])
        (by
          intro k hk
          simp only [hkt, List.mem_append, List.mem_singleton] at hk
          rcases hk with hk | hk
          · have := htk k hk
            simp only [hv]
            omega
          · simp only [hk, le_refl])
    simp only at hcv hphes htm hkeep hall
    refine ⟨st2, ?_, ?_, ?_, ?_, ?_, ?_⟩
    · rw [rotateLoop]
      simp only [hv, hmod, ne_eq, not_true_eq_false, if_false]
      rw [← hv, hr]
      simp only [hc]
      exact hloop
    · rw [hcv, hv]
      simp only [List.length_cons]
      omega
    · rw [hphes, hkp, hv]
      simp [List.range'_succ]
    · rw [htm, hkt, hv]
      simp [List.range'_succ]
    · intro k hk
      rw [hkeep k (by omega)]
      exact GoMap.lookup_assign_of_ne _ _ _ _ (by omega)
    · intro t1 ht1
      rcases List.mem_cons.mp ht1 with h1 | h1
      · rw [h1, hkeep t.Version (le_refl _)]
        exact GoMap.lookup_assign_self _ _ _
      · exact hall t1 h1

/-- C13 (the clients cover every version from the initial key version `V`
to `Version`, and `Version` is `V` plus the number of update tokens)
fails on the code. With the never-failing PHE library, a valid access
token and application identifier, keys in wire format at version `5`
and no update token, `CreateContext` succeeds, but the returned
`PHEClients` has the single key `0` instead of the key `5`, and
`Version` is `0` instead of `5 + 0`: the parser returns version `0` for
every key. -/
theorem CreateContext_clients_lose_key_version :
    encodeVersioned "SK".toList 5 [1, 2, 3] = "SK.5.AQID".toList ∧
    encodeVersioned "PK".toList 5 [4, 5, 6] = "PK.5.BAUG".toList ∧
    CreateContext totalPHE "token".toList sampleAppId "SK.5.AQID".toList "PK.5.BAUG".toList [] =
      (some (Context.mk "token".toList sampleAppId [(0, (none, none))] none 0), none) ∧
    GoMap.keys (Context.mk "token".toList sampleAppId [(0, ((none : Bytes), (none : Bytes)))]
      none 0).PHEClients = [0] ∧
    GoMap.keys (Context.mk "token".toList sampleAppId [(0, ((none : Bytes), (none : Bytes)))]
      none 0).PHEClients ≠ List.range' 5 (([] : List GoString).length + 1) ∧
    (Context.mk "token".toList sampleAppId [(0, ((none : Bytes), (none : Bytes)))]
      none 0).Version ≠ 5 + ([] : List GoString).length := by
  refine ⟨by decide, by decide, rfl, rfl, by decide, by decide⟩

/-- C14: whenever `CreateContext` succeeds on `n` update tokens, for an
initial key version `V`, the keys of the returned `UpdateTokens` are
exactly `V+1, ..., V+n`: there is one entry per supplied token, every
parsed token is stored under its version with its payload, `V` is not a
key, and every key is a key of `PHEClients`; the `nil` map has no key.
This is what the rotation loop delivers to the returned `Context`:
started as `CreateContext` starts it, with the client of version `V` and
an empty token map, on tokens that carry the versions `V+1, ..., V+n` and
a PHE library that succeeds, it ends without error at version `V+n` with
exactly these keys in the token map, each token under its version with
its payload, and with the clients `V, ..., V+n`. -/
theorem CreateContext_update_tokens_keys {Client : Type} (phe : PHE Client) :
    (∀ (accessToken appId clientSecretKey serverPublicKey : GoString)
        (updateTokens : List GoString) (ctx : Context Client) (V : Nat),
      CreateContext phe accessToken appId clientSecretKey serverPublicKey updateTokens =
          (some ctx, none) →
        GoMap.keys (ctx.UpdateTokens.getD []) = List.range' (V + 1) updateTokens.length ∧
        (GoMap.keys (ctx.UpdateTokens.getD [])).length = updateTokens.length ∧
        (∀ t ∈ (parseTokens updateTokens).1,
          GoMap.lookup (ctx.UpdateTokens.getD []) t.Version = some t.UpdateToken) ∧
        V ∉ GoMap.keys (ctx.UpdateTokens.getD []) ∧
        (∀ k ∈ GoMap.keys (ctx.UpdateTokens.getD []), k ∈ GoMap.keys ctx.PHEClients)) ∧
    (∀ (V : Nat) (pheClient : Client) (sk pubBytes : Bytes)
        (tokens : List VersionedUpdateToken),
      (∀ sk1 pub1, ∃ c, phe.NewClient sk1 pub1 = Except.ok c) →
      (∀ sk1 pub1 tok, ∃ r, phe.RotateClientKeys sk1 pub1 tok = Except.ok r) →
      tokens.map (fun t => t.Version) = List.range' (V + 1) tokens.length →
      V + tokens.length < 2 ^ 32 →
        ∃ st, rotateLoop phe tokens
            (LoopState.mk (GoMap.assign [] V pheClient) sk pubBytes V []) = Except.ok st ∧
          st.currentVersion = V + tokens.length ∧
          GoMap.keys st.tokenMap = List.range' (V + 1) tokens.length ∧
          (GoMap.keys st.tokenMap).length = tokens.length ∧
          (∀ t ∈ tokens, GoMap.lookup st.tokenMap t.Version = some t.UpdateToken) ∧
          V ∉ GoMap.keys st.tokenMap ∧
          (∀ k ∈ GoMap.keys st.tokenMap, k ∈ GoMap.keys st.phes) ∧
          GoMap.keys st.phes = List.range' V (tokens.length + 1)) := by
  constructor
  · intro accessToken appId clientSecretKey serverPublicKey updateTokens ctx V h
    have herr : (CreateContext phe accessToken appId clientSecretKey serverPublicKey
        updateTokens).2 = none := by rw [h]
    obtain ⟨hnil, pheClient, _, heq⟩ :=
      CreateContext_ok phe accessToken appId clientSecretKey serverPublicKey updateTokens herr
    rw [heq] at h
    simp only [Prod.mk.injEq, Option.some.injEq, and_true] at h
    subst h
    subst hnil
    refine ⟨by simp [GoMap.keys], by simp [GoMap.keys], ?_, by simp [GoMap.keys],
      by simp [GoMap.keys]⟩
    intro t ht
    simp [parseTokens] at ht
  · intro V pheClient sk pubBytes tokens hnew hrot hver hbound
    obtain ⟨st, hloop, hcv, hphes, htm, _, hall⟩ :=
      rotateLoop_chain phe hnew hrot tokens
        (LoopState.mk (GoMap.assign [] V pheClient) sk pubBytes V []) hver hbound
        (by
          intro k hk
          simp only [GoMap.assign, GoMap.keys, List.map_cons, List.map_nil,
            List.mem_singleton] at hk
          exact le_of_eq hk)
        (by
          intro k hk
          simp [GoMap.keys] at hk)
    simp only at hcv hphes htm
    have htm2 : GoMap.keys st.tokenMap = List.range' (V + 1) tokens.length := by
      rw [htm]
      simp [GoMap.keys]
    have hphes2 : GoMap.keys st.phes = List.range' V (tokens.length + 1) := by
      rw [hphes]
      simp [GoMap.keys, GoMap.assign, List.range'_succ]
    refine ⟨st, hloop, hcv, htm2, by rw [htm2, List.length_range'], hall, ?_, ?_, hphes2⟩
    · rw [htm2, List.mem_range'_1]
      omega
    · intro k hk
      rw [htm2, List.mem_range'_1] at hk
      rw [hphes2, List.mem_range'_1]
      omega

/-- Witness of C14: keys without update tokens on the never-failing PHE
library, where the returned `UpdateTokens` is the `nil` map; and the
rotation loop started at version `1` on tokens for the versions `2` and
`3`, which ends at version `3` with the token map keys `2, 3`. -/
theorem CreateContext_update_tokens_keys_witness :
    (GoMap.keys ((none : Option (GoMap Bytes)).getD []) =
        List.range' (5 + 1) ([] : List GoString).length ∧
      5 ∉ GoMap.keys ((none : Option (GoMap Bytes)).getD [])) ∧
    (∃ st, rotateLoop totalPHE
          [VersionedUpdateToken.mk 2 (some [7]), VersionedUpdateToken.mk 3 (some [8])]
          (LoopState.mk (GoMap.assign [] 1 (none, none)) none none 1 []) = Except.ok st ∧
        st.currentVersion = 3 ∧
        GoMap.keys st.tokenMap = [2, 3] ∧
        GoMap.lookup st.tokenMap 2 = some (some [7]) ∧
        GoMap.lookup st.tokenMap 3 = some (some [8]) ∧
        GoMap.keys st.phes = [1, 2, 3]) := by
  have hmain := CreateContext_update_tokens_keys totalPHE
  have hA := hmain.1 "token".toList sampleAppId "SK.5.AQID".toList "PK.5.BAUG".toList []
    (Context.mk "token".toList sampleAppId [(0, (none, none))] none 0) 5 rfl
  obtain ⟨st, hloop, hcv, htm, _, hall, _, _, hphes⟩ :=
    hmain.2 1 (none, none) none none
      [VersionedUpdateToken.mk 2 (some [7]), VersionedUpdateToken.mk 3 (some [8])]
      (fun sk1 pub1 => ⟨(sk1, pub1), rfl⟩) (fun _ pub1 tok => ⟨(tok, pub1), rfl⟩)
      (by decide) (by decide)
  exact ⟨⟨hA.1, hA.2.2.2.1⟩, st, hloop, hcv, htm,
    hall (VersionedUpdateToken.mk 2 (some [7])) (by simp),
    hall (VersionedUpdateToken.mk 3 (some [8])) (by simp), hphes⟩

/-- C15: for all inputs without update tokens that pass validation, key
parsing and the version-equality check, `CreateContext` succeeds if and
only if the client construction of the PHE library succeeds on the
parsed key bytes; it then returns a `Context` with the given
`AccessToken` and `AppId`, `Version` equal to the parsed key version,
`PHEClients` holding exactly that client under that version and the
`nil` map as `UpdateTokens`. The rotation function has no influence on
the outcome. -/
theorem CreateContext_without_tokens {Client : Type} (phe : PHE Client)
    (accessToken appId clientSecretKey serverPublicKey : GoString)
    (hvalid : ¬ (appId.length ≠ 32 ∨ clientSecretKey = [] ∨ serverPublicKey = [] ∨
      accessToken = []))
    (hhex : ∃ bs, hexDecodeString appId = Except.ok bs)
    (hsk : (ParseVersionAndContent "SK".toList clientSecretKey).2.2 = none)
    (hpk : (ParseVersionAndContent "PK".toList serverPublicKey).2.2 = none)
    (_hver : (ParseVersionAndContent "SK".toList clientSecretKey).1 =
      (ParseVersionAndContent "PK".toList serverPublicKey).1) :
    (((CreateContext phe accessToken appId clientSecretKey serverPublicKey []).2 = none ∧
        (CreateContext phe accessToken appId clientSecretKey serverPublicKey []).1 ≠ none) ↔
      ∃ pheClient,
        phe.NewClient (ParseVersionAndContent "SK".toList clientSecretKey).2.1
          (ParseVersionAndContent "PK".toList serverPublicKey).2.1 = Except.ok pheClient) ∧
    (∀ pheClient,
      phe.NewClient (ParseVersionAndContent "SK".toList clientSecretKey).2.1
          (ParseVersionAndContent "PK".toList serverPublicKey).2.1 = Except.ok pheClient →
        CreateContext phe accessToken appId clientSecretKey serverPublicKey [] =
          (some (Context.mk accessToken appId
            [((ParseVersionAndContent "PK".toList serverPublicKey).1, pheClient)] none
            (ParseVersionAndContent "PK".toList serverPublicKey).1), none)) ∧
    (∀ rotate : Bytes → Bytes → Bytes → Except GoError (Bytes × Bytes),
      CreateContext (PHE.mk phe.NewClient rotate) accessToken appId clientSecretKey
          serverPublicKey [] =
        CreateContext phe accessToken appId clientSecretKey serverPublicKey []) := by
  obtain ⟨bs, hx⟩ := hhex
  have hpt : parseTokens [] = ([], none) := rfl
  have hshape : ∀ p : PHE Client,
      CreateContext p accessToken appId clientSecretKey serverPublicKey [] =
        match p.NewClient none none with
        | Except.error err =>
          (none, some (GoError.withMessage err "could not create PHE client"))
        | Except.ok pheClient =>
          (some (Context.mk accessToken appId [(0, pheClient)] none 0), none) := by
    intro p
    rw [CreateContext_eq, if_neg hvalid, hx]
    simp only [hsk, hpk, hpt]
    cases p.NewClient none none with
    | error err => rfl
    | ok pheClient => rfl
  simp only [ParseVersionAndContent_content, ParseVersionAndContent_version]
  refine ⟨?_, ?_, ?_⟩
  · rw [hshape phe]
    cases phe.NewClient none none with
    | error err => simp
    | ok pheClient => simp
  · intro pheClient hnc
    rw [hshape phe, hnc]
  · intro rotate
    rw [hshape phe, hshape (PHE.mk phe.NewClient rotate)]

/-- Witness of C15: the keys `SK.1.AAAA` and `PK.1.AAAA` on the
never-failing PHE library. -/
theorem CreateContext_without_tokens_witness :
    (∃ pheClient,
      totalPHE.NewClient (ParseVersionAndContent "SK".toList "SK.1.AAAA".toList).2.1
        (ParseVersionAndContent "PK".toList "PK.1.AAAA".toList).2.1 = Except.ok pheClient) ∧
    (CreateContext totalPHE "token".toList sampleAppId "SK.1.AAAA".toList
        "PK.1.AAAA".toList []).2 = none ∧
    (CreateContext totalPHE "token".toList sampleAppId "SK.1.AAAA".toList
        "PK.1.AAAA".toList []).1 ≠ none :=
  have hmain := CreateContext_without_tokens totalPHE "token".toList sampleAppId
    "SK.1.AAAA".toList "PK.1.AAAA".toList (by decide) ⟨_, rfl⟩ (by decide) (by decide)
    (by decide)
  have hclient : ∃ pheClient,
      totalPHE.NewClient (ParseVersionAndContent "SK".toList "SK.1.AAAA".toList).2.1
        (ParseVersionAndContent "PK".toList "PK.1.AAAA".toList).2.1 = Except.ok pheClient :=
    ⟨(none, none), rfl⟩
  ⟨hclient, (hmain.1.mpr hclient).1, (hmain.1.mpr hclient).2⟩

/-! ## Order of the checks and the exact behaviour: claims C16 to C19 -/

/-- The function `CreateContext` returns either a `Context` and the `nil` error, or no
`Context` and a non-nil error. -/
theorem CreateContext_err_nil {Client : Type} (phe : PHE Client)
    (accessToken appId clientSecretKey serverPublicKey : GoString)
    (updateTokens : List GoString)
    (h : (CreateContext phe accessToken appId clientSecretKey serverPublicKey
      updateTokens).2 ≠ none) :
    (CreateContext phe accessToken appId clientSecretKey serverPublicKey updateTokens).1 =
      none := by
  rw [CreateContext_eq] at h ⊢
  by_cases hcond : appId.length ≠ 32 ∨ clientSecretKey = [] ∨ serverPublicKey = [] ∨
      accessToken = []
  · rw [if_pos hcond]
  · rw [if_neg hcond] at h ⊢
    cases hx : hexDecodeString appId with
    | error e => rfl
    | ok bs =>
      rw [hx] at h
      simp only at h ⊢
      cases hsk : (ParseVersionAndContent "SK".toList clientSecretKey).2.2 with
      | some e => rfl
      | none =>
        rw [hsk] at h
        simp only at h ⊢
        cases hpk : (ParseVersionAndContent "PK".toList serverPublicKey).2.2 with
        | some e => rfl
        | none =>
          rw [hpk] at h
          simp only at h ⊢
          cases hnc : phe.NewClient none none with
          | error e => rfl
          | ok pheClient =>
            rw [hnc] at h
            simp only at h ⊢
            cases hpt : (parseTokens updateTokens).2 with
            | some e => rfl
            | none =>
              rw [hpt] at h
              simp only at h ⊢
              by_cases hlen : (parseTokens updateTokens).1.length > 0
              · rw [if_pos hlen]
              · rw [if_neg hlen] at h
                simp at h

/-- C16: for all inputs that pass validation, key parsing, the version
check and the initial client construction, if the parser with prefix
`UT` rejects at least one update-token string, `CreateContext` returns
no `Context` and the token-parsing error "could not parse update
tokens"; the outcome is the same for every rotation function. -/
theorem CreateContext_token_format_first {Client : Type} (phe : PHE Client)
    (accessToken appId clientSecretKey serverPublicKey : GoString)
    (updateTokens : List GoString)
    (hvalid : ¬ (appId.length ≠ 32 ∨ clientSecretKey = [] ∨ serverPublicKey = [] ∨
      accessToken = []))
    (hhex : ∃ bs, hexDecodeString appId = Except.ok bs)
    (hsk : (ParseVersionAndContent "SK".toList clientSecretKey).2.2 = none)
    (hpk : (ParseVersionAndContent "PK".toList serverPublicKey).2.2 = none)
    (_hver : (ParseVersionAndContent "SK".toList clientSecretKey).1 =
      (ParseVersionAndContent "PK".toList serverPublicKey).1)
    (hclient : ∃ pheClient,
      phe.NewClient (ParseVersionAndContent "SK".toList clientSecretKey).2.1
        (ParseVersionAndContent "PK".toList serverPublicKey).2.1 = Except.ok pheClient)
    (hbad : ∃ s ∈ updateTokens, (ParseVersionAndContent "UT".toList s).2.2 ≠ none) :
    (CreateContext phe accessToken appId clientSecretKey serverPublicKey updateTokens).1 =
      none ∧
    (∃ err, (parseTokens updateTokens).2 = some err ∧
      (CreateContext phe accessToken appId clientSecretKey serverPublicKey updateTokens).2 =
        some (GoError.withMessage err "could not parse update tokens")) ∧
    (∀ rotate : Bytes → Bytes → Bytes → Except GoError (Bytes × Bytes),
      CreateContext (PHE.mk phe.NewClient rotate) accessToken appId clientSecretKey
          serverPublicKey updateTokens =
        CreateContext phe accessToken appId clientSecretKey serverPublicKey updateTokens) := by
  obtain ⟨bs, hx⟩ := hhex
  obtain ⟨pheClient, hnc⟩ := hclient
  simp only [ParseVersionAndContent_content] at hnc
  have hperr := (parseTokens_err_iff updateTokens).mpr hbad
  obtain ⟨err, herr⟩ : ∃ err, (parseTokens updateTokens).2 = some err := by
    cases hp : (parseTokens updateTokens).2 with
    | none => exact absurd hp hperr
    | some e => exact ⟨e, rfl⟩
  have hshape : ∀ p : PHE Client, p.NewClient none none = Except.ok pheClient →
      CreateContext p accessToken appId clientSecretKey serverPublicKey updateTokens =
        (none, some (GoError.withMessage err "could not parse update tokens")) := by
    intro p hp
    rw [CreateContext_eq, if_neg hvalid, hx]
    simp only [hsk, hpk, hp, herr]
  refine ⟨by rw [hshape phe hnc], ⟨err, herr, by rw [hshape phe hnc]⟩, ?_⟩
  intro rotate
  rw [hshape phe hnc, hshape (PHE.mk phe.NewClient rotate) hnc]

/-- Witness of C16: a well-formed token followed by one whose version
segment is not a number. -/
theorem CreateContext_token_format_first_witness :
    (CreateContext totalPHE "token".toList sampleAppId "SK.1.AAAA".toList "PK.1.AAAA".toList
        ["UT.2.AAAA".toList, "UT.x.AAAA".toList]).1 = none ∧
    (∃ err, (parseTokens ["UT.2.AAAA".toList, "UT.x.AAAA".toList]).2 = some err ∧
      (CreateContext totalPHE "token".toList sampleAppId "SK.1.AAAA".toList
        "PK.1.AAAA".toList ["UT.2.AAAA".toList, "UT.x.AAAA".toList]).2 =
        some (GoError.withMessage err "could not parse update tokens")) ∧
    (∀ rotate : Bytes → Bytes → Bytes → Except GoError (Bytes × Bytes),
      CreateContext (PHE.mk totalPHE.NewClient rotate) "token".toList sampleAppId
          "SK.1.AAAA".toList "PK.1.AAAA".toList ["UT.2.AAAA".toList, "UT.x.AAAA".toList] =
        CreateContext totalPHE "token".toList sampleAppId "SK.1.AAAA".toList
          "PK.1.AAAA".toList ["UT.2.AAAA".toList, "UT.x.AAAA".toList]) :=
  CreateContext_token_format_first totalPHE "token".toList sampleAppId "SK.1.AAAA".toList
    "PK.1.AAAA".toList ["UT.2.AAAA".toList, "UT.x.AAAA".toList] (by decide) ⟨_, rfl⟩
    (by decide) (by decide) (by decide) ⟨(none, none), rfl⟩
    ⟨"UT.x.AAAA".toList, by decide, by decide⟩

/-- C18: for every PHE library and all inputs in which at least one
update token is supplied, `CreateContext` returns no `Context` and a
non-nil error. -/
theorem CreateContext_with_tokens_fails {Client : Type} (phe : PHE Client)
    (accessToken appId clientSecretKey serverPublicKey : GoString)
    (updateTokens : List GoString) (hne : updateTokens ≠ []) :
    (CreateContext phe accessToken appId clientSecretKey serverPublicKey updateTokens).1 =
      none ∧
    (CreateContext phe accessToken appId clientSecretKey serverPublicKey updateTokens).2 ≠
      none := by
  have herr : (CreateContext phe accessToken appId clientSecretKey serverPublicKey
      updateTokens).2 ≠ none := fun h =>
    hne (CreateContext_ok phe accessToken appId clientSecretKey serverPublicKey updateTokens h).1
  exact ⟨CreateContext_err_nil phe accessToken appId clientSecretKey serverPublicKey
    updateTokens herr, herr⟩

/-- Witness of C18: one update token in wire format for the version after
the initial one, on the never-failing PHE library. -/
theorem CreateContext_with_tokens_fails_witness :
    ["UT.2.AAAA".toList] ≠ [] ∧
    (CreateContext totalPHE "token".toList sampleAppId "SK.1.AAAA".toList "PK.1.AAAA".toList
        ["UT.2.AAAA".toList]).1 = none ∧
    (CreateContext totalPHE "token".toList sampleAppId "SK.1.AAAA".toList "PK.1.AAAA".toList
        ["UT.2.AAAA".toList]).2 ≠ none :=
  ⟨by decide, CreateContext_with_tokens_fails totalPHE "token".toList sampleAppId
    "SK.1.AAAA".toList "PK.1.AAAA".toList ["UT.2.AAAA".toList] (by decide)⟩

theorem stringsSplit_eq_nil_singleton (s : GoString) (sep : Char)
    (h : stringsSplit s sep = [[]]) : s = [] := by
  cases s with
  | nil => rfl
  | cons c cs =>
    exfalso
    unfold stringsSplit at h
    split at h
    · have hne := stringsSplit_ne_nil cs sep
      simp only [List.cons.injEq, true_and] at h
      exact hne h
    · split at h <;> simp at h

theorem eraseIdx_two_parts (l m : List GoString) (hlen : l.length = m.length)
    (h : l.eraseIdx 2 = m.eraseIdx 2) :
    l.getD 0 [] = m.getD 0 [] ∧ l.getD 1 [] = m.getD 1 [] := by
  match l, m with
  | [], [] => simp
  | [], _ :: _ => simp at hlen
  | _ :: _, [] => simp at hlen
  | [a], [b] => simp at h; simp [h]
  | [_], _ :: _ :: _ => simp at hlen
  | _ :: _ :: _, [_] => simp at hlen
  | a :: b :: r, c :: d :: t =>
    simp only [List.eraseIdx, List.cons.injEq] at h
    simp [h.1, h.2.1]

/-- The parser does not tell apart two strings that differ only in their
third segment. -/
theorem ParseVersionAndContent_sameButThird (pfx s t : GoString) (h : sameButThird s t) :
    ParseVersionAndContent pfx s = ParseVersionAndContent pfx t := by
  obtain ⟨hlen, herase⟩ := h
  obtain ⟨h0, h1⟩ := eraseIdx_two_parts _ _ hlen herase
  rw [ParseVersionAndContent_eq, ParseVersionAndContent_eq, hlen, h0, h1]

theorem sameButThird_nil (s t : GoString) (h : sameButThird s t) (hs : s = []) : t = [] := by
  subst hs
  obtain ⟨hlen, herase⟩ := h
  apply stringsSplit_eq_nil_singleton t '.'
  have h1 : (stringsSplit t '.').length = 1 := by
    rw [← hlen]
    rfl
  match hm : stringsSplit t '.', h1 with
  | [a], _ =>
    rw [hm] at herase
    simp [stringsSplit] at herase
    rw [herase]

theorem sameButThird_symm (s t : GoString) (h : sameButThird s t) : sameButThird t s :=
  ⟨h.1.symm, h.2.symm⟩

theorem parseTokensLoop_sameButThird (ts us : List GoString)
    (h : List.Forall₂ sameButThird ts us) :
    ∀ acc, parseTokensLoop ts acc = parseTokensLoop us acc := by
  induction h with
  | nil => intro acc; rfl
  | cons hst _ ih =>
    intro acc
    unfold parseTokensLoop
    rw [ParseVersionAndContent_sameButThird _ _ _ hst]
    rcases ParseVersionAndContent "UT".toList _ with ⟨v, c, e⟩
    cases e with
    | some e0 => rfl
    | none => exact ih _

theorem parseTokens_sameButThird (ts us : List GoString)
    (h : List.Forall₂ sameButThird ts us) : parseTokens ts = parseTokens us := by
  unfold parseTokens
  rw [h.length_eq, parseTokensLoop_sameButThird ts us h]

/-- C19 (payload independence): if two calls of `CreateContext` have the
same access token, application identifier and number of update tokens,
and each key and token string of the second call differs from the
corresponding string of the first only in its third dot-separated
segment, both calls return the same outcome. The PHE library influences
the outcome only through its client construction on `nil` secret-key and
public-key bytes: two libraries that agree there give the same outcome. -/
theorem CreateContext_payload_independent {Client : Type} (phe : PHE Client)
    (accessToken appId sk1 pk1 sk2 pk2 : GoString) (tokens1 tokens2 : List GoString)
    (hsk : sameButThird sk1 sk2) (hpk : sameButThird pk1 pk2)
    (htok : List.Forall₂ sameButThird tokens1 tokens2) :
    CreateContext phe accessToken appId sk1 pk1 tokens1 =
      CreateContext phe accessToken appId sk2 pk2 tokens2 ∧
    (∀ phe2 : PHE Client, phe2.NewClient none none = phe.NewClient none none →
      CreateContext phe2 accessToken appId sk1 pk1 tokens1 =
        CreateContext phe accessToken appId sk1 pk1 tokens1) := by
  constructor
  · have hske : (sk1 = []) = (sk2 = []) :=
      propext ⟨sameButThird_nil sk1 sk2 hsk,
        sameButThird_nil sk2 sk1 (sameButThird_symm _ _ hsk)⟩
    have hpke : (pk1 = []) = (pk2 = []) :=
      propext ⟨sameButThird_nil pk1 pk2 hpk,
        sameButThird_nil pk2 pk1 (sameButThird_symm _ _ hpk)⟩
    rw [CreateContext_eq, CreateContext_eq, parseTokens_sameButThird tokens1 tokens2 htok,
      ParseVersionAndContent_sameButThird _ sk1 sk2 hsk,
      ParseVersionAndContent_sameButThird _ pk1 pk2 hpk]
    simp only [hske, hpke]
  · intro phe2 h2
    rw [CreateContext_eq, CreateContext_eq, h2]

/-- Witness of C19: the payloads of the keys and of the update token are
replaced. -/
theorem CreateContext_payload_independent_witness :
    (sameButThird "SK.1.AAAA".toList "SK.1.AQID".toList ∧
      sameButThird "PK.1.AAAA".toList "PK.1.BAUG".toList ∧
      List.Forall₂ sameButThird ["UT.2.AAAA".toList] ["UT.2.Bw==".toList]) ∧
    (CreateContext totalPHE "token".toList sampleAppId "SK.1.AAAA".toList "PK.1.AAAA".toList
        ["UT.2.AAAA".toList] =
      CreateContext totalPHE "token".toList sampleAppId "SK.1.AQID".toList "PK.1.BAUG".toList
        ["UT.2.Bw==".toList] ∧
    (∀ phe2 : PHE (Bytes × Bytes), phe2.NewClient none none = totalPHE.NewClient none none →
      CreateContext phe2 "token".toList sampleAppId "SK.1.AAAA".toList "PK.1.AAAA".toList
          ["UT.2.AAAA".toList] =
        CreateContext totalPHE "token".toList sampleAppId "SK.1.AAAA".toList
          "PK.1.AAAA".toList ["UT.2.AAAA".toList])) :=
  ⟨⟨by decide, by decide, List.Forall₂.cons (by decide) List.Forall₂.nil⟩,
    CreateContext_payload_independent totalPHE "token".toList sampleAppId "SK.1.AAAA".toList
      "PK.1.AAAA".toList "SK.1.AQID".toList "PK.1.BAUG".toList ["UT.2.AAAA".toList]
      ["UT.2.Bw==".toList] (by decide) (by decide)
      (List.Forall₂.cons (by decide) List.Forall₂.nil)⟩

/-! ## What `strconv.Atoi` accepts, and claim C17 -/

theorem digitVal_some (c : Char) (d : Nat) (h : digitVal c = some d) : d = c.toNat - 48 := by
  unfold digitVal at h
  split at h
  · simp at h
    exact h.symm
  · simp at h

theorem digitsValueFrom_ge (s : GoString) : ∀ n, n ≤ digitsValueFrom n s := by
  induction s with
  | nil => intro n; simp [digitsValueFrom]
  | cons c cs ih =>
    intro n
    have h := ih (n * 10 + (c.toNat - 48))
    simp only [digitsValueFrom, List.foldl_cons] at h ⊢
    omega

/-- On a string of decimal digits the loop of `ParseUint` returns the
number the digits denote, or a range error when it exceeds `uint64`. -/
theorem parseUintLoop_digits (s : GoString) (hall : ∀ c ∈ s, (digitVal c).isSome = true) :
    ∀ n, n ≤ 2 ^ 64 - 1 → parseUintLoop n s =
      if digitsValueFrom n s ≤ 2 ^ 64 - 1 then Except.ok (digitsValueFrom n s)
      else Except.error NumErrKind.errRangeKind := by
  induction s with
  | nil =>
    intro n hn
    simp only [parseUintLoop, digitsValueFrom, List.foldl_nil]
    rw [if_pos hn]
  | cons c cs ih =>
    intro n _
    have hc := hall c (List.mem_cons_self _ _)
    obtain ⟨d, hd⟩ := Option.isSome_iff_exists.mp hc
    have hdv := digitVal_some c d hd
    have hge := digitsValueFrom_ge cs (n * 10 + d)
    have hstep : digitsValueFrom n (c :: cs) = digitsValueFrom (n * 10 + d) cs := by
      simp [digitsValueFrom, hdv]
    rw [hstep]
    unfold parseUintLoop
    rw [hd]
    simp only
    by_cases h1 : n ≥ (2 ^ 64 - 1) / 10 + 1
    · rw [if_pos h1, if_neg (by omega)]
    · rw [if_neg h1]
      by_cases h2 : n * 10 + d > 2 ^ 64 - 1
      · rw [if_pos h2, if_neg (by omega)]
      · rw [if_neg h2]
        exact ih (fun c1 h1 => hall c1 (List.mem_cons_of_mem _ h1)) _ (by omega)

/-- On a string that holds a byte other than a decimal digit the loop of
`ParseUint` returns an error. -/
theorem parseUintLoop_nondigit (s : GoString) (h : ∃ c ∈ s, digitVal c = none) :
    ∀ n v, parseUintLoop n s ≠ Except.ok v := by
  induction s with
  | nil =>
    obtain ⟨c, hc, _⟩ := h
    simp at hc
  | cons c cs ih =>
    intro n v
    unfold parseUintLoop
    cases hd : digitVal c with
    | none => simp
    | some d =>
      simp only
      split
      · simp
      · split
        · simp
        · apply ih
          obtain ⟨c1, hc1, hbad⟩ := h
          rcases List.mem_cons.mp hc1 with hc1 | hc1
          · rw [hc1, hd] at hbad
            simp at hbad
          · exact ⟨c1, hc1, hbad⟩

/-- The strings `ParseUint` accepts: at least one byte, decimal digits
only, denoting a number in the `uint64` range. -/
theorem parseUint_ok_iff (s : GoString) (v : Nat) :
    parseUint s = Except.ok v ↔
      s ≠ [] ∧ (∀ c ∈ s, (digitVal c).isSome = true) ∧ digitsValueFrom 0 s ≤ 2 ^ 64 - 1 ∧
        v = digitsValueFrom 0 s := by
  cases s with
  | nil => simp [parseUint]
  | cons c cs =>
    have hpu : parseUint (c :: cs) = parseUintLoop 0 (c :: cs) := rfl
    rw [hpu]
    by_cases hall : ∀ d ∈ c :: cs, (digitVal d).isSome = true
    · rw [parseUintLoop_digits (c :: cs) hall 0 (by omega)]
      constructor
      · intro h
        split at h
        · rename_i hle
          simp only [Except.ok.injEq] at h
          exact ⟨by simp, hall, hle, h.symm⟩
        · simp at h
      · rintro ⟨_, _, hle, hv⟩
        rw [if_pos hle, hv]
    · constructor
      · intro h
        exfalso
        apply parseUintLoop_nondigit (c :: cs) _ 0 v h
        by_contra hno
        apply hall
        intro d hd
        cases hdv : digitVal d with
        | none => exact absurd ⟨d, hd, hdv⟩ hno
        | some x => rfl
      · rintro ⟨_, h, _, _⟩
        exact absurd h hall

/-- The result of `ParseInt` in terms of the result of `ParseUint` on the
digits: the value is accepted when it fits the signed range. -/
theorem parseInt_ok_iff (neg : Bool) (body : GoString) (bound : Nat)
    (hb : bound = if neg = true then 2 ^ 63 else 2 ^ 63 - 1) :
    (∃ n : Int,
      (match parseUint body with
        | Except.error k => (Except.error k : Except NumErrKind Int)
        | Except.ok un =>
          if ¬ (neg = true) ∧ un ≥ 2 ^ 63 then Except.error NumErrKind.errRangeKind
          else if neg = true ∧ un > 2 ^ 63 then Except.error NumErrKind.errRangeKind
          else Except.ok (if neg = true then - (un : Int) else (un : Int))) = Except.ok n) ↔
      body ≠ [] ∧ (∀ c ∈ body, (digitVal c).isSome = true) ∧ digitsValueFrom 0 body ≤ bound := by
  cases hp : parseUint body with
  | error k =>
    simp only [false_iff, not_and, not_le]
    constructor
    · rintro ⟨n, hn⟩
      cases hn
    · rintro ⟨hne, hall, hle⟩
      have hmax : digitsValueFrom 0 body ≤ 2 ^ 64 - 1 := by
        cases neg <;> simp at hb <;> omega
      have := (parseUint_ok_iff body (digitsValueFrom 0 body)).mpr ⟨hne, hall, hmax, rfl⟩
      rw [hp] at this
      cases this
  | ok un =>
    obtain ⟨hne, hall, hmax, hv⟩ := (parseUint_ok_iff body un).mp hp
    subst hv
    simp only
    cases neg with
    | true =>
      simp only [if_true] at hb
      subst hb
      rw [if_neg (fun h => h.1 rfl)]
      by_cases hgt : digitsValueFrom 0 body > 2 ^ 63
      · rw [if_pos ⟨rfl, hgt⟩]
        constructor
        · rintro ⟨n, hn⟩
          cases hn
        · rintro ⟨_, _, hle⟩
          omega
      · rw [if_neg (fun h => hgt h.2)]
        constructor
        · intro _
          exact ⟨hne, hall, by omega⟩
        · intro _
          exact ⟨_, rfl⟩
    | false =>
      simp only [Bool.false_eq_true, if_false] at hb
      subst hb
      by_cases hge : digitsValueFrom 0 body ≥ 2 ^ 63
      · rw [if_pos ⟨by simp, hge⟩]
        constructor
        · rintro ⟨n, hn⟩
          cases hn
        · rintro ⟨_, _, hle⟩
          omega
      · rw [if_neg (fun h => hge h.2), if_neg (fun h => Bool.false_ne_true h.1)]
        constructor
        · intro _
          exact ⟨hne, hall, by omega⟩
        · intro _
          exact ⟨_, rfl⟩

/-- The strings `strconv.Atoi` accepts are exactly the optionally signed
decimal integers in the range of a 64-bit `int`. -/
theorem Atoi_ok_iff (s : GoString) : (∃ n, Atoi s = Except.ok n) ↔ isIntLiteral s := by
  have h1 : (∃ n, Atoi s = Except.ok n) ↔ (∃ n, parseInt s = Except.ok n) := by
    unfold Atoi
    cases parseInt s <;> simp
  rw [h1]
  cases s with
  | nil => simp [parseInt, isIntLiteral]
  | cons c cs =>
    unfold isIntLiteral
    simp only
    by_cases hm : c = '-'
    · have hneg : decide (c = '-') = true := decide_eq_true hm
      have hbody : (if c = '+' ∨ c = '-' then cs else c :: cs) = cs := if_pos (Or.inr hm)
      have key := parseInt_ok_iff (decide (c = '-'))
        (if c = '+' ∨ c = '-' then cs else c :: cs) (2 ^ 63) (by rw [hneg]; rfl)
      rw [if_pos hm]
      refine Iff.trans (Iff.trans Iff.rfl key) ?_
      rw [hbody]
    · have hneg : decide (c = '-') = false := decide_eq_false hm
      have key := parseInt_ok_iff (decide (c = '-'))
        (if c = '+' ∨ c = '-' then cs else c :: cs) (2 ^ 63 - 1) (by rw [hneg]; rfl)
      rw [if_neg hm]
      refine Iff.trans (Iff.trans Iff.rfl key) ?_
      by_cases hp : c = '+'
      · have hbody : (if c = '+' ∨ c = '-' then cs else c :: cs) = cs := if_pos (Or.inl hp)
        rw [if_pos hp, hbody]
        have hlt : digitsValueFrom 0 cs < 2 ^ 63 ↔ digitsValueFrom 0 cs ≤ 2 ^ 63 - 1 := by omega
        rw [hlt]
      · have hbody : (if c = '+' ∨ c = '-' then cs else c :: cs) = c :: cs :=
          if_neg (fun h => h.elim hp hm)
        rw [if_neg hp, hbody]
        have hlt : digitsValueFrom 0 (c :: cs) < 2 ^ 63 ↔
            digitsValueFrom 0 (c :: cs) ≤ 2 ^ 63 - 1 := by omega
        rw [hlt]
        have hne : c :: cs ≠ [] := by simp
        simp only [hne, ne_eq, not_false_eq_true, true_and]

/-- C17 (exact characterisation of the parser): for every prefix and
every string, the returned version is `0` and the returned content is
`nil`; the returned error is `nil` if and only if the string splits on
`.` into exactly three parts, the first part equals the prefix, and
`strconv.Atoi` accepts the second part, that is, the second part is an
optionally signed decimal integer in the `int` range. The third part is
not inspected: a string that differs only there gives the same result. -/
theorem ParseVersionAndContent_exact (pfx str : GoString) :
    (ParseVersionAndContent pfx str).1 = 0 ∧
    (ParseVersionAndContent pfx str).2.1 = none ∧
    ((ParseVersionAndContent pfx str).2.2 = none ↔
      (stringsSplit str '.').length = 3 ∧ (stringsSplit str '.').getD 0 [] = pfx ∧
        ∃ n, Atoi ((stringsSplit str '.').getD 1 []) = Except.ok n) ∧
    ((∃ n, Atoi ((stringsSplit str '.').getD 1 []) = Except.ok n) ↔
      isIntLiteral ((stringsSplit str '.').getD 1 [])) ∧
    (∀ str2, sameButThird str str2 →
      ParseVersionAndContent pfx str2 = ParseVersionAndContent pfx str) := by
  refine ⟨ParseVersionAndContent_version pfx str, ParseVersionAndContent_content pfx str, ?_,
    Atoi_ok_iff _, fun str2 h => (ParseVersionAndContent_sameButThird pfx str str2 h).symm⟩
  rw [ParseVersionAndContent_eq]
  by_cases hshape : (stringsSplit str '.').length ≠ 3 ∨ (stringsSplit str '.').getD 0 [] ≠ pfx
  · rw [if_pos hshape]
    simp only [reduceCtorEq, false_iff, not_and]
    intro h3 h0
    rcases hshape with h | h
    · exact absurd h3 h
    · exact absurd h0 h
  · rw [if_neg hshape]
    simp only [not_or, not_not] at hshape
    cases ha : Atoi ((stringsSplit str '.').getD 1 []) with
    | error e =>
      constructor
      · intro h
        cases h
      · rintro ⟨_, _, n, hn⟩
        cases hn
    | ok n =>
      constructor
      · intro _
        exact ⟨hshape.1, hshape.2, n, rfl⟩
      · intro _
        rfl

end Passw0rd
